import Mathlib

/-!
# containers-storage: the `image` and `layer` command families

A shallow embedding of `cmd/containers-storage/image.go` and
`cmd/containers-storage/layer.go`.  Every command is a function from the
argument list and a `World` (store state, standard streams, files, the
package-level flag variables) to an `Outcome` and the world it leaves behind.
The store `m storage.Store` is an interface value: it is a parameter of every
command, and each invocation of one of its methods is recorded in
`World.calls`.
-/

set_option autoImplicit false

namespace ContainersStorage

/-! ## Data model -/

/-- One element of a Go byte slice. -/
abbrev Byte := Fin 256

/-- A Go byte slice. -/
abbrev Bytes := List Byte

/-- A Go error value, known by its two renderings: under `%v` and under `%+v`. -/
structure GoError where
  v : String
  plusV : String
deriving DecidableEq, Repr

/-- The type `digest.Digest`: a string. -/
abbrev Digest := String

/-- The type `idtools.IDMap`: one contiguous range of an identifier mapping. -/
structure IDMap where
  ContainerID : Int
  HostID : Int
  Size : Int
deriving DecidableEq, Repr

/-- The fields of `storage.Image` that the commands read. -/
structure Image where
  ID : String
  Names : List String
  TopLayer : String
  MappedTopLayers : List String
  Digests : List Digest
  BigDataNames : List String
  ReadOnly : Bool
deriving DecidableEq, Repr

/-- The fields of `storage.Layer` that the commands read. -/
structure Layer where
  ID : String
  Parent : String
  Names : List String
  UIDMap : List IDMap
  GIDMap : List IDMap
  ReadOnly : Bool
deriving DecidableEq, Repr

/-! ## The digest scheme

The package `github.com/opencontainers/go-digest` and the hash behind its
canonical algorithm are not among the two source files; the commands use
`digest.Canonical.FromBytes`, `Digest.Validate` and `Digest.String`. -/

namespace sha256

/-- Modelled from the spec: the hash of the digest scheme in use (SHA-256, FIPS 180-4),
which lives outside the two source files.  Its constants come from the first 64
primes. -/
def primes : List Nat :=
  (List.range 312).filter
    (fun n => decide (2 ≤ n) && (List.range n).all (fun d => decide (d < 2) || n % d != 0))

/-- Modelled from the spec: the digest scheme in use, absent from the source files; here the
integer root of order `k` of `n`, found bit by bit from the bit of weight `2 ^ (bits - 1)` down.
-/
def iroot (k n bits : Nat) : Nat :=
  (List.range bits).foldl (fun r i =>
    let c := r + 2 ^ (bits - 1 - i)
    if c ^ k ≤ n then c else r) 0

/-- Modelled from the spec: the digest scheme in use, absent from the source files; here the 64
round constants: the first 32 bits of the fractional parts of the cube roots of the first 64
primes. -/
def K : List Nat :=
  primes.map (fun p => iroot 3 (p * 2 ^ 96) 36 % 2 ^ 32)

/-- Modelled from the spec: the digest scheme in use, absent from the source files; here the
word of index `i` of the initial hash value: the first 32 bits of the fractional part of the
square root of the prime of index `i`. -/
def H0 (i : Nat) : Nat :=
  iroot 2 (primes.getD i 0 * 2 ^ 64) 35 % 2 ^ 32

/-- Modelled from the spec: the digest scheme in use, absent from the source files; here the
eight 32-bit words of the hash state. -/
structure State where
  a : Nat
  b : Nat
  c : Nat
  d : Nat
  e : Nat
  f : Nat
  g : Nat
  h : Nat
deriving DecidableEq, Repr

/-- Modelled from the spec: the digest scheme in use, absent from the source files; here the
initial hash value. -/
def init : State :=
  ⟨H0 0, H0 1, H0 2, H0 3, H0 4, H0 5, H0 6, H0 7⟩

/-- Modelled from the spec: the digest scheme in use, absent from the source files; here rotate
a 32-bit word right by `n` bits. -/
def rotr (x n : Nat) : Nat := ((x >>> n) ||| (x <<< (32 - n))) % 2 ^ 32

/-- Modelled from the spec: the digest scheme in use, absent from the source files; here the
choice function. -/
def ch (x y z : Nat) : Nat := (x &&& y) ^^^ ((x ^^^ 0xffffffff) &&& z)
/-- Modelled from the spec: the digest scheme in use, absent from the source files; here the
majority function. -/
def maj (x y z : Nat) : Nat := (x &&& y) ^^^ (x &&& z) ^^^ (y &&& z)
/-- Modelled from the spec: the digest scheme in use, absent from the source files; here the
function Sigma0. -/
def bsig0 (x : Nat) : Nat := rotr x 2 ^^^ rotr x 13 ^^^ rotr x 22
/-- Modelled from the spec: the digest scheme in use, absent from the source files; here the
function Sigma1. -/
def bsig1 (x : Nat) : Nat := rotr x 6 ^^^ rotr x 11 ^^^ rotr x 25
/-- Modelled from the spec: the digest scheme in use, absent from the source files; here the
function sigma0. -/
def ssig0 (x : Nat) : Nat := rotr x 7 ^^^ rotr x 18 ^^^ (x >>> 3)
/-- Modelled from the spec: the digest scheme in use, absent from the source files; here the
function sigma1. -/
def ssig1 (x : Nat) : Nat := rotr x 17 ^^^ rotr x 19 ^^^ (x >>> 10)

/-- Modelled from the spec: the digest scheme in use, absent from the source files; here
padding: the byte 0x80, zeros up to 56 modulo 64, the bit length on 8 bytes. -/
def pad (msg : List Nat) : List Nat :=
  let bits := (8 * msg.length) % 2 ^ 64
  msg ++ [0x80] ++ List.replicate ((119 - msg.length % 64) % 64) 0 ++
    (List.range 8).map (fun i => (bits >>> (8 * (7 - i))) % 256)

/-- Modelled from the spec: the digest scheme in use, absent from the source files; here the
big-endian 32-bit words of a block. -/
def words : List Nat → List Nat
  | b0 :: b1 :: b2 :: b3 :: rest => (b0 * 2 ^ 24 + b1 * 2 ^ 16 + b2 * 2 ^ 8 + b3) :: words rest
  | _ => []

/-- Modelled from the spec: the digest scheme in use, absent from the source files; here the
message schedule: 16 block words extended to 64. -/
def schedule (block : List Nat) : List Nat :=
  (List.range 48).foldl (fun w i =>
    let t := i + 16
    w ++ [(ssig1 (w.getD (t - 2) 0) + w.getD (t - 7) 0 + ssig0 (w.getD (t - 15) 0)
      + w.getD (t - 16) 0) % 2 ^ 32]) (words block)

/-- Modelled from the spec: the digest scheme in use, absent from the source files; here one
round. -/
def round (s : State) (kw : Nat × Nat) : State :=
  let t1 := s.h + bsig1 s.e + ch s.e s.f s.g + kw.1 + kw.2
  let t2 := bsig0 s.a + maj s.a s.b s.c
  ⟨(t1 + t2) % 2 ^ 32, s.a, s.b, s.c, (s.d + t1) % 2 ^ 32, s.e, s.f, s.g⟩

/-- Modelled from the spec: the digest scheme in use, absent from the source files; here the
compression of one 64-byte block into the state. -/
def compress (s : State) (block : List Nat) : State :=
  let r := (K.zip (schedule block)).foldl round s
  ⟨(s.a + r.a) % 2 ^ 32, (s.b + r.b) % 2 ^ 32, (s.c + r.c) % 2 ^ 32, (s.d + r.d) % 2 ^ 32,
   (s.e + r.e) % 2 ^ 32, (s.f + r.f) % 2 ^ 32, (s.g + r.g) % 2 ^ 32, (s.h + r.h) % 2 ^ 32⟩

/-- Modelled from the spec: the digest scheme in use, absent from the source files; here the
four bytes of a 32-bit word, most significant first. -/
def be32 (x : Nat) : Bytes :=
  [Fin.ofNat (x >>> 24), Fin.ofNat (x >>> 16), Fin.ofNat (x >>> 8), Fin.ofNat x]

/-- Modelled from the spec: the hash of the digest scheme in use, the function
`sha256.Sum256` of the Go standard library, absent from the source files. -/
def sum (msg : Bytes) : Bytes :=
  let p := pad (msg.map Fin.val)
  let s := (List.range (p.length / 64)).foldl
    (fun s i => compress s ((p.drop (64 * i)).take 64)) init
  [s.a, s.b, s.c, s.d, s.e, s.f, s.g, s.h].flatMap be32

end sha256

namespace digest

/-- Modelled from the spec: the digest scheme in use, absent from the source files; here the
lowercase hexadecimal digit of a value below 16. -/
def hexDigit (n : Nat) : Char :=
  if n < 10 then Char.ofNat (48 + n) else Char.ofNat (87 + n)

/-- Modelled from the spec: the digest scheme in use, absent from the source files; here the
characters of `hex.EncodeToString`: two lowercase digits per byte. -/
def hexChars (b : Bytes) : List Char :=
  b.flatMap (fun x => [hexDigit (x.val / 16), hexDigit (x.val % 16)])

/-- Modelled from the spec: the canonical algorithm of the digest scheme in use
(`digest.Canonical`, absent from the source files). -/
def Canonical : String := "sha256"

/-- Modelled from the spec: `digest.Canonical.FromBytes`, absent from the source files:
the digest `<algorithm>:<hex>` of the bytes under the canonical algorithm. -/
def Canonical.FromBytes (p : Bytes) : Digest :=
  String.mk (Canonical.toList ++ ':' :: hexChars (sha256.sum p))

/-- Modelled from the spec: the digest scheme in use, absent from the source files; here the
error `digest.ErrDigestInvalidFormat`. -/
def ErrDigestInvalidFormat : GoError :=
  ⟨"invalid checksum digest format", "invalid checksum digest format"⟩

/-- Modelled from the spec: the digest scheme in use, absent from the source files; here the
error `digest.ErrDigestInvalidLength`. -/
def ErrDigestInvalidLength : GoError :=
  ⟨"invalid checksum digest length", "invalid checksum digest length"⟩

/-- Modelled from the spec: the digest scheme in use, absent from the source files; here the
error `digest.ErrDigestUnsupported`. -/
def ErrDigestUnsupported : GoError :=
  ⟨"unsupported digest algorithm", "unsupported digest algorithm"⟩

/-- Modelled from the spec: the digest scheme in use, absent from the source files; here the
size in bytes of the hash of an available algorithm. -/
def algorithmSize (a : List Char) : Option Nat :=
  if a = "sha256".toList then some 32
  else if a = "sha384".toList then some 48
  else if a = "sha512".toList then some 64
  else none

/-- Modelled from the spec: the digest scheme in use, absent from the source files; here a
character of the class a-f0-9. -/
def isLowerHex (c : Char) : Bool :=
  (48 ≤ c.toNat && c.toNat ≤ 57) || (97 ≤ c.toNat && c.toNat ≤ 102)

/-- Modelled from the spec: the digest scheme in use, absent from the source files; here a
character of the class a-z0-9. -/
def isAlgChar (c : Char) : Bool :=
  (48 ≤ c.toNat && c.toNat ≤ 57) || (97 ≤ c.toNat && c.toNat ≤ 122)

/-- Modelled from the spec: the digest scheme in use, absent from the source files; here a
character of the class a-zA-Z0-9=_-. -/
def isEncodedChar (c : Char) : Bool :=
  isAlgChar c || (65 ≤ c.toNat && c.toNat ≤ 90) || c = '=' || c = '_' || c = '-'

/-- Modelled from the spec: the digest scheme in use, absent from the source files; here one of
the separators of an algorithm name: dot, plus, underscore, dash. -/
def isSeparator (c : Char) : Bool :=
  c = '.' || c = '+' || c = '_' || c = '-'

/-- Modelled from the spec: the digest scheme in use, absent from the source files; here the
algorithm half of the general digest form: components of a-z0-9 joined by single separators. The
flag says whether the previous character belongs to a component. -/
def algorithmForm : List Char → Bool → Bool
  | [], inComponent => inComponent
  | c :: rest, inComponent =>
    if isAlgChar c then algorithmForm rest true
    else if isSeparator c && inComponent then algorithmForm rest false
    else false

/-- Modelled from the spec: the digest scheme in use, absent from the source files; here the
length of a string in bytes, as Go's `len` counts it. -/
def byteLen (cs : List Char) : Nat :=
  (cs.map Char.utf8Size).sum

/-- Modelled from the spec: the syntactic validation `Digest.Validate`, absent from the
source files: the canonical string form `<algorithm>:<hex>` of the digest scheme in
use.  The algorithm is what precedes the first colon; it must be a known one, and the
rest must be lowercase hexadecimal of twice the hash size. -/
def Validate (d : Digest) : Option GoError :=
  let s := d.toList
  let algorithm := s.takeWhile (fun c => c != ':')
  if algorithm.length = 0 ∨ algorithm.length = s.length ∨ algorithm.length + 1 = s.length then
    some ErrDigestInvalidFormat
  else
    let encoded := s.drop (algorithm.length + 1)
    match algorithmSize algorithm with
    | none =>
      if algorithmForm algorithm false && encoded.all isEncodedChar then some ErrDigestUnsupported
      else some ErrDigestInvalidFormat
    | some size =>
      if size * 2 ≠ byteLen encoded then some ErrDigestInvalidLength
      else if encoded.all isLowerHex then none
      else some ErrDigestInvalidFormat

end digest

/-! ## The store interface and the world -/

/-- An `io.Reader` read to its end: the bytes it yields, then the error (if any)
that ends the reading instead of a clean end of file. -/
structure Reader where
  data : Bytes
  err : Option GoError
deriving DecidableEq, Repr

/-- The function `io.ReadAll`: the bytes, unless reading reports an error. -/
def Reader.readAll (r : Reader) : Except GoError Bytes :=
  match r.err with
  | none => .ok r.data
  | some e => .error e

/-- The methods of `storage.Store` that the two files call.  The lookups are
functions of the store state; the two setters return the next state and the
error they report. -/
structure Store (σ : Type) where
  Image : σ → String → Except GoError Image
  Layer : σ → String → Except GoError Layer
  ImageSize : σ → String → Except GoError Int
  ListImageBigData : σ → String → Except GoError (List String)
  ImageBigData : σ → String → String → Except GoError Bytes
  ImageBigDataSize : σ → String → String → Except GoError Int
  ImageBigDataDigest : σ → String → String → Except GoError Digest
  SetImageBigData : σ → String → String → Bytes → (Bytes → Except GoError Digest) →
    σ × Option GoError
  ListLayerBigData : σ → String → Except GoError (List String)
  LayerBigData : σ → String → String → Except GoError Reader
  SetLayerBigData : σ → String → String → Reader → σ × Option GoError
  LayerParentOwners : σ → String → Except GoError (List Int × List Int)

/-- One invocation of a store method, with its arguments. -/
inductive StoreCall where
  | Image (nameOrID : String)
  | Layer (nameOrID : String)
  | ImageSize (id : String)
  | ListImageBigData (id : String)
  | ImageBigData (id key : String)
  | ImageBigDataSize (id key : String)
  | ImageBigDataDigest (id key : String)
  | SetImageBigData (id key : String) (data : Bytes) (digestManifest : Bytes → Except GoError Digest)
  | ListLayerBigData (id : String)
  | LayerBigData (id key : String)
  | SetLayerBigData (id key : String) (data : Reader)
  | LayerParentOwners (id : String)

/-- The call is one of the two setters. -/
def StoreCall.isSet : StoreCall → Bool
  | .SetImageBigData _ _ _ _ => true
  | .SetLayerBigData _ _ _ => true
  | _ => false

/-- One write to a stream: formatted text, raw bytes, or a value handed to a
JSON encoder (the encoding itself belongs to `encoding/json`). -/
inductive Output where
  | text (s : String)
  | bytes (b : Bytes)
  | jsonImages (matched : List Image)
  | jsonLayers (matched : List Layer)
  | jsonNames (d : List String)
  | jsonOwners (ID : String) (UIDs GIDs : List Int)
deriving DecidableEq, Repr

/-- A path of the file system as `os.Open` and `os.Create` see it. -/
structure File where
  data : Bytes
  openErr : Option GoError
  readErr : Option GoError
  createErr : Option GoError
deriving DecidableEq, Repr

/-- Everything a command can read or change. -/
structure World (σ : Type) where
  store : σ
  calls : List StoreCall
  stdin : Reader
  stdout : List Output
  stderr : List String
  files : String → File
  jsonOutput : Bool
  paramImageDataFile : String
  paramLayerDataFile : String

/-- How a command ends: with an exit status, or in the runtime panic of an
out-of-range index. -/
inductive Outcome where
  | exit (status : Int)
  | panic
deriving DecidableEq, Repr

/-- Where `output` points: the standard output or a created file. -/
inductive OutputFile where
  | stdout
  | file (path : String)
deriving DecidableEq, Repr

variable {σ : Type}

namespace World

/-- Record a store invocation. -/
def call (w : World σ) (c : StoreCall) : World σ :=
  { w with calls := w.calls ++ [c] }

/-- The call `fmt.Printf` (and `fmt.Fprintf(os.Stdout, ...)`) with its formatted text. -/
def printf (w : World σ) (s : String) : World σ :=
  { w with stdout := w.stdout ++ [Output.text s] }

/-- The call `fmt.Fprintf(os.Stderr, ...)` with its formatted text. -/
def eprintf (w : World σ) (s : String) : World σ :=
  { w with stderr := w.stderr ++ [s] }

/-- The call `json.NewEncoder(os.Stdout).Encode(v)`. -/
def encode (w : World σ) (o : Output) : World σ :=
  { w with stdout := w.stdout ++ [o] }

/-- The call `os.Open(path)`. -/
def osOpen (w : World σ) (path : String) : Except GoError Reader :=
  match (w.files path).openErr with
  | some e => .error e
  | none => .ok { data := (w.files path).data, err := (w.files path).readErr }

/-- The call `os.Create(path)`: the file is truncated when it succeeds. -/
def osCreate (w : World σ) (path : String) : Except GoError (World σ) :=
  match (w.files path).createErr with
  | some e => .error e
  | none =>
    let f := w.files path
    .ok { w with files := Function.update w.files path { f with data := [] } }

/-- The call `output.Write(b)`. -/
def write (w : World σ) (output : OutputFile) (b : Bytes) : World σ :=
  match output with
  | .stdout => { w with stdout := w.stdout ++ [Output.bytes b] }
  | .file path =>
    let f := w.files path
    { w with files := Function.update w.files path { f with data := f.data ++ b } }

end World

/-! ## image.go -/

/-- The loop of lines 20-24 of image.go (the same loop opens `layer` and
`layerParentOwners`, over `m.Layer`). -/
def matchImages (m : Store σ) (args : List String) (w : World σ) : List Image × World σ :=
  args.foldl (fun (acc : List Image × World σ) arg =>
    let w := acc.2.call (.Image arg)
    match m.Image w.store arg with
    | .ok image => (acc.1 ++ [image], w)
    | .error _ => (acc.1, w)) ([], w)

/-- The body of the text loop of `image`, lines 29-51. -/
def imageText (m : Store σ) (w : World σ) (image : Image) : World σ :=
  let w := w.printf ("ID: " ++ image.ID ++ "\n")
  let w := image.Names.foldl (fun w name => w.printf ("Name: " ++ name ++ "\n")) w
  let w := w.printf ("Top Layer: " ++ image.TopLayer ++ "\n")
  let w := image.MappedTopLayers.foldl (fun w layerID => w.printf ("Top Layer: " ++ layerID ++ "\n")) w
  let w := image.Digests.foldl (fun w digest => w.printf ("Digest: " ++ digest ++ "\n")) w
  let w := image.BigDataNames.foldl (fun w name => w.printf ("Data: " ++ name ++ "\n")) w
  let w := w.call (.ImageSize image.ID)
  let w := match m.ImageSize w.store image.ID with
    | .error err => w.printf ("Size unknown: " ++ err.plusV ++ "\n")
    | .ok size => w.printf ("Size: " ++ toString size ++ "\n")
  if image.ReadOnly then w.printf "Read Only: true\n" else w

/-- The command `image`. -/
def image (m : Store σ) (args : List String) (w : World σ) : Outcome × World σ :=
  let (matched, w) := matchImages m args w
  let w := if w.jsonOutput then w.encode (.jsonImages matched)
    else matched.foldl (imageText m) w
  if matched.length ≠ args.length then (.exit 1, w) else (.exit 0, w)

/-- Lines 87-95 of image.go (44-52 of layer.go): `output` is the standard output,
or the file named by the flag variable, created. -/
def openOutput (w : World σ) (param : String) : Except GoError (OutputFile × World σ) :=
  if param ≠ "" then
    match w.osCreate param with
    | .error err => .error err
    | .ok w => .ok (.file param, w)
  else .ok (.stdout, w)

/-- Lines 150-158 of image.go (72-80 of layer.go): `input` is the standard input,
or the file named by the flag variable, opened. -/
def openInput (w : World σ) (param : String) : Except GoError Reader :=
  if param ≠ "" then w.osOpen param else .ok w.stdin

/-- The command `list-image-data`. -/
def listImageBigData (m : Store σ) (args : List String) (w : World σ) : Outcome × World σ :=
  match args[0]? with
  | none => (.panic, w)
  | some arg0 =>
    let w := w.call (.Image arg0)
    match m.Image w.store arg0 with
    | .error err => (.exit 1, w.eprintf (err.plusV ++ "\n"))
    | .ok image =>
      let w := w.call (.ListImageBigData image.ID)
      match m.ListImageBigData w.store image.ID with
      | .error err => (.exit 1, w.eprintf (err.plusV ++ "\n"))
      | .ok d =>
        if w.jsonOutput then (.exit 0, w.encode (.jsonNames d))
        else (.exit 0, d.foldl (fun w name => w.printf (name ++ "\n")) w)

/-- The command `get-image-data`. -/
def getImageBigData (m : Store σ) (args : List String) (w : World σ) : Outcome × World σ :=
  match args[0]? with
  | none => (.panic, w)
  | some arg0 =>
    let w := w.call (.Image arg0)
    match m.Image w.store arg0 with
    | .error err => (.exit 1, w.eprintf (err.plusV ++ "\n"))
    | .ok image =>
      match openOutput w w.paramImageDataFile with
      | .error err => (.exit 1, w.eprintf (err.v ++ "\n"))
      | .ok (output, w) =>
        match args[1]? with
        | none => (.panic, w)
        | some arg1 =>
          let w := w.call (.ImageBigData image.ID arg1)
          match m.ImageBigData w.store image.ID arg1 with
          | .error err => (.exit 1, w.eprintf (err.plusV ++ "\n"))
          | .ok b => (.exit 0, w.write output b)

/-- The function `wrongManifestDigest`. -/
def wrongManifestDigest (b : Bytes) : Except GoError Digest :=
  .ok (digest.Canonical.FromBytes b)

/-- The command `get-image-data-size`. -/
def getImageBigDataSize (m : Store σ) (args : List String) (w : World σ) : Outcome × World σ :=
  match args[0]? with
  | none => (.panic, w)
  | some arg0 =>
    let w := w.call (.Image arg0)
    match m.Image w.store arg0 with
    | .error err => (.exit 1, w.eprintf (err.plusV ++ "\n"))
    | .ok image =>
      match args[1]? with
      | none => (.panic, w)
      | some arg1 =>
        let w := w.call (.ImageBigDataSize image.ID arg1)
        match m.ImageBigDataSize w.store image.ID arg1 with
        | .error err => (.exit 1, w.eprintf (err.plusV ++ "\n"))
        | .ok size => (.exit 0, w.printf (toString size ++ "\n"))

/-- The command `get-image-data-digest`. -/
def getImageBigDataDigest (m : Store σ) (args : List String) (w : World σ) : Outcome × World σ :=
  match args[0]? with
  | none => (.panic, w)
  | some arg0 =>
    let w := w.call (.Image arg0)
    match m.Image w.store arg0 with
    | .error err => (.exit 1, w.eprintf (err.plusV ++ "\n"))
    | .ok image =>
      match args[1]? with
      | none => (.panic, w)
      | some arg1 =>
        let w := w.call (.ImageBigDataDigest image.ID arg1)
        match m.ImageBigDataDigest w.store image.ID arg1 with
        | .error err => (.exit 1, w.eprintf (err.plusV ++ "\n"))
        | .ok d =>
          match digest.Validate d with
          | some err => (.exit 1, w.eprintf (err.v ++ "\n"))
          | none => (.exit 0, w.printf (d ++ "\n"))

/-- The command `set-image-data`. -/
def setImageBigData (m : Store σ) (args : List String) (w : World σ) : Outcome × World σ :=
  match args[0]? with
  | none => (.panic, w)
  | some arg0 =>
    let w := w.call (.Image arg0)
    match m.Image w.store arg0 with
    | .error err => (.exit 1, w.eprintf (err.v ++ "\n"))
    | .ok image =>
      match openInput w w.paramImageDataFile with
      | .error err => (.exit 1, w.eprintf (err.v ++ "\n"))
      | .ok input =>
        match input.readAll with
        | .error err => (.exit 1, w.eprintf (err.v ++ "\n"))
        | .ok b =>
          match args[1]? with
          | none => (.panic, w)
          | some arg1 =>
            let w := w.call (.SetImageBigData image.ID arg1 b wrongManifestDigest)
            let r := m.SetImageBigData w.store image.ID arg1 b wrongManifestDigest
            let w := { w with store := r.1 }
            match r.2 with
            | some err => (.exit 1, w.eprintf (err.v ++ "\n"))
            | none => (.exit 0, w)

/-! ## layer.go -/

/-- The command `list-layer-data`. -/
def listLayerBigData (m : Store σ) (args : List String) (w : World σ) : Outcome × World σ :=
  match args[0]? with
  | none => (.panic, w)
  | some arg0 =>
    let w := w.call (.Layer arg0)
    match m.Layer w.store arg0 with
    | .error err => (.exit 1, w.eprintf (err.plusV ++ "\n"))
    | .ok layer =>
      let w := w.call (.ListLayerBigData layer.ID)
      match m.ListLayerBigData w.store layer.ID with
      | .error err => (.exit 1, w.eprintf (err.plusV ++ "\n"))
      | .ok d =>
        if w.jsonOutput then (.exit 0, w.encode (.jsonNames d))
        else (.exit 0, d.foldl (fun w name => w.printf (name ++ "\n")) w)

/-- The command `get-layer-data`.  The call `io.Copy(output, b)` writes what the
reader yields and reports the reader's error. -/
def getLayerBigData (m : Store σ) (args : List String) (w : World σ) : Outcome × World σ :=
  match args[0]? with
  | none => (.panic, w)
  | some arg0 =>
    let w := w.call (.Layer arg0)
    match m.Layer w.store arg0 with
    | .error err => (.exit 1, w.eprintf (err.plusV ++ "\n"))
    | .ok layer =>
      match openOutput w w.paramLayerDataFile with
      | .error err => (.exit 1, w.eprintf (err.v ++ "\n"))
      | .ok (output, w) =>
        match args[1]? with
        | none => (.panic, w)
        | some arg1 =>
          let w := w.call (.LayerBigData layer.ID arg1)
          match m.LayerBigData w.store layer.ID arg1 with
          | .error err => (.exit 1, w.eprintf (err.plusV ++ "\n"))
          | .ok b =>
            let w := w.write output b.data
            match b.err with
            | some err => (.exit 1, w.eprintf (err.plusV ++ "\n"))
            | none => (.exit 0, w)

/-- The command `set-layer-data`. -/
def setLayerBigData (m : Store σ) (args : List String) (w : World σ) : Outcome × World σ :=
  match args[0]? with
  | none => (.panic, w)
  | some arg0 =>
    let w := w.call (.Layer arg0)
    match m.Layer w.store arg0 with
    | .error err => (.exit 1, w.eprintf (err.plusV ++ "\n"))
    | .ok layer =>
      match openInput w w.paramLayerDataFile with
      | .error err => (.exit 1, w.eprintf (err.v ++ "\n"))
      | .ok input =>
        match args[1]? with
        | none => (.panic, w)
        | some arg1 =>
          let w := w.call (.SetLayerBigData layer.ID arg1 input)
          let r := m.SetLayerBigData w.store layer.ID arg1 input
          let w := { w with store := r.1 }
          match r.2 with
          | some err => (.exit 1, w.eprintf (err.plusV ++ "\n"))
          | none => (.exit 0, w)

/-- The loop of lines 91-95 (and 126-130) of layer.go. -/
def matchLayers (m : Store σ) (args : List String) (w : World σ) : List Layer × World σ :=
  args.foldl (fun (acc : List Layer × World σ) arg =>
    let w := acc.2.call (.Layer arg)
    match m.Layer w.store arg with
    | .ok layer => (acc.1 ++ [layer], w)
    | .error _ => (acc.1, w)) ([], w)

/-- The text of one mapping line of `layer`. -/
def mappingText (kind : String) (u : IDMap) : String :=
  kind ++ " mapping: (container=" ++ toString u.ContainerID ++ ", host=" ++ toString u.HostID
    ++ ", size=" ++ toString u.Size ++ ")\n"

/-- The body of the text loop of `layer`, lines 100-115. -/
def layerText (w : World σ) (layer : Layer) : World σ :=
  let w := w.printf ("ID: " ++ layer.ID ++ "\n")
  let w := layer.UIDMap.foldl (fun w u => w.printf (mappingText "UID" u)) w
  let w := layer.GIDMap.foldl (fun w g => w.printf (mappingText "GID" g)) w
  let w := if layer.Parent ≠ "" then w.printf ("Parent: " ++ layer.Parent ++ "\n") else w
  let w := layer.Names.foldl (fun w name => w.printf ("Name: " ++ name ++ "\n")) w
  if layer.ReadOnly then w.printf "Read Only: true\n" else w

/-- The command `layer`. -/
def layer (m : Store σ) (args : List String) (w : World σ) : Outcome × World σ :=
  let (matched, w) := matchLayers m args w
  let w := if w.jsonOutput then w.encode (.jsonLayers matched)
    else matched.foldl layerText w
  if matched.length ≠ args.length then (.exit 1, w) else (.exit 0, w)

/-- The rendering of an int slice under `%v`. -/
def fmtInts (l : List Int) : String :=
  "[" ++ " ".intercalate (l.map toString) ++ "]"

/-- What lines 137-156 of layer.go write for one layer and its owners. -/
def ownersReport (w : World σ) (layer : Layer) (uids gids : List Int) : World σ :=
  if w.jsonOutput then w.encode (.jsonOwners layer.ID uids gids)
  else
    let w := w.printf ("ID: " ++ layer.ID ++ "\n")
    let w := if uids.length > 0 then w.printf ("UIDs: " ++ fmtInts uids ++ "\n") else w
    if gids.length > 0 then w.printf ("GIDs: " ++ fmtInts gids ++ "\n") else w

/-- The loop of lines 131-157 of layer.go.  The flag is true when the loop was left
by the `return 1` of line 135. -/
def ownersLoop (m : Store σ) : List Layer → World σ → Bool × World σ
  | [], w => (false, w)
  | layer :: rest, w =>
    let w := w.call (.LayerParentOwners layer.ID)
    match m.LayerParentOwners w.store layer.ID with
    | .error err => (true, w.eprintf ("LayerParentOwner: " ++ err.plusV ++ "\n"))
    | .ok (uids, gids) => ownersLoop m rest (ownersReport w layer uids gids)

/-- The command `layer-parent-owners`. -/
def layerParentOwners (m : Store σ) (args : List String) (w : World σ) : Outcome × World σ :=
  let (matched, w) := matchLayers m args w
  match ownersLoop m matched w with
  | (true, w) => (.exit 1, w)
  | (false, w) => if matched.length ≠ args.length then (.exit 1, w) else (.exit 0, w)

/-! ## Registration -/

/-- The fields of the type `command` that the two `init` functions set
(`optionsHelp`, `usage` and `addFlags` are left out).  A field that a
registration does not mention has Go's zero value. -/
structure Command (σ : Type) where
  names : List String
  action : Store σ → List String → World σ → Outcome × World σ
  minArgs : Int
  maxArgs : Int

/-- The commands that `init` of image.go appends. -/
def init_image : List (Command σ) :=
  [ { names := ["image"], action := image, minArgs := 1, maxArgs := 0 },
    { names := ["list-image-data", "listimagedata"], action := listImageBigData,
      minArgs := 1, maxArgs := 1 },
    { names := ["get-image-data", "getimagedata"], action := getImageBigData,
      minArgs := 2, maxArgs := 0 },
    { names := ["get-image-data-size", "getimagedatasize"], action := getImageBigDataSize,
      minArgs := 2, maxArgs := 0 },
    { names := ["get-image-data-digest", "getimagedatadigest"], action := getImageBigDataDigest,
      minArgs := 2, maxArgs := 0 },
    { names := ["set-image-data", "setimagedata"], action := setImageBigData,
      minArgs := 2, maxArgs := 0 } ]

/-- The commands that `init` of layer.go appends. -/
def init_layer : List (Command σ) :=
  [ { names := ["layer"], action := layer, minArgs := 1, maxArgs := 0 },
    { names := ["layer-parent-owners"], action := layerParentOwners, minArgs := 1, maxArgs := 0 },
    { names := ["list-layer-data", "listlayerdata"], action := listLayerBigData,
      minArgs := 1, maxArgs := 1 },
    { names := ["get-layer-data", "getlayerdata"], action := getLayerBigData,
      minArgs := 2, maxArgs := 0 },
    { names := ["set-layer-data", "setlayerdata"], action := setLayerBigData,
      minArgs := 2, maxArgs := 0 } ]

/-- The package variable `commands` once both `init` functions have run. -/
def commands : List (Command σ) :=
  init_image ++ init_layer

/-! ## The store behind the interface

The implementation of `storage.Store` is not among the two source files.  The
definitions of this section follow sections 3 and 4 of the specification. -/

namespace SpecStore

/-- Modelled from the spec: the BigData entry of section 3, the value of one
`(ownerID, name)` pair: the bytes and the digest recorded with them (the store
itself is absent from the source files). -/
structure BigDataEntry where
  data : Bytes
  digest : Digest
deriving DecidableEq, Repr

/-- Modelled from the spec: the state of the absent store: the Image and Layer records
of the Metadata Store and the entries of the BigData Subsystem, at most one per
`(ownerID, name)` pair. -/
structure State where
  images : List Image
  layers : List Layer
  imageData : List ((String × String) × BigDataEntry)
  layerData : List ((String × String) × Bytes)
deriving DecidableEq, Repr

/-- Modelled from the spec: the error kind `NotFound` of section 7 (the store's errors
are absent from the source files). -/
def NotFound : GoError := ⟨"NotFound", "NotFound"⟩

/-- Modelled from the spec: the error kind `ReadOnlyOwner` of section 7 (the store's
errors are absent from the source files). -/
def ReadOnlyOwner : GoError := ⟨"ReadOnlyOwner", "ReadOnlyOwner"⟩

/-- Modelled from the spec: the error kind `InvalidDigest` of section 7 (the store's
errors are absent from the source files). -/
def InvalidDigest : GoError := ⟨"InvalidDigest", "InvalidDigest"⟩

/-- Modelled from the spec: the map `(ownerID, name) -> entry` of section 3 (the store
is absent from the source files); here the value stored under a key. -/
def lookup {κ ν : Type} [DecidableEq κ] (k : κ) : List (κ × ν) → Option ν
  | [] => none
  | e :: rest => if e.1 = k then some e.2 else lookup k rest

/-- Modelled from the spec: the map `(ownerID, name) -> entry` of section 3 (the store
is absent from the source files); here a later `Set` replaces the value of its key. -/
def insert {κ ν : Type} [DecidableEq κ] (k : κ) (v : ν) (l : List (κ × ν)) : List (κ × ν) :=
  (k, v) :: l.filter (fun e => e.1 ≠ k)

/-- Modelled from the spec: `ResolveImage` of section 4.1, absent from the source
files: resolution by ID is authoritative, resolution by name returns the record that
owns the name. -/
def ResolveImage (s : State) (nameOrID : String) : Except GoError Image :=
  match s.images.find? (fun i => i.ID = nameOrID) with
  | some i => .ok i
  | none =>
    match s.images.find? (fun i => nameOrID ∈ i.Names) with
    | some i => .ok i
    | none => .error NotFound

/-- Modelled from the spec: `ResolveLayer` of section 4.1, absent from the source
files. -/
def ResolveLayer (s : State) (nameOrID : String) : Except GoError Layer :=
  match s.layers.find? (fun l => l.ID = nameOrID) with
  | some l => .ok l
  | none =>
    match s.layers.find? (fun l => nameOrID ∈ l.Names) with
    | some l => .ok l
    | none => .error NotFound

/-- Modelled from the spec: `List` of section 4.2 for an image, absent from the source
files: the owner's `BigDataNames` at the moment of the call. -/
def ListImageBigData (s : State) (ownerID : String) : Except GoError (List String) :=
  match ResolveImage s ownerID with
  | .error e => .error e
  | .ok owner => .ok owner.BigDataNames

/-- Modelled from the spec: `Get` of section 4.2 for an image, absent from the source
files. -/
def ImageBigData (s : State) (ownerID name : String) : Except GoError Bytes :=
  match ResolveImage s ownerID with
  | .error e => .error e
  | .ok owner =>
    match lookup (owner.ID, name) s.imageData with
    | none => .error NotFound
    | some entry => .ok entry.data

/-- Modelled from the spec: `GetSize` of section 4.2 for an image, absent from the
source files. -/
def ImageBigDataSize (s : State) (ownerID name : String) : Except GoError Int :=
  match ResolveImage s ownerID with
  | .error e => .error e
  | .ok owner =>
    match lookup (owner.ID, name) s.imageData with
    | none => .error NotFound
    | some entry => .ok (entry.data.length : Int)

/-- Modelled from the spec: `GetDigest` of section 4.2 for an image, absent from the
source files: the stored digest, validated syntactically on read. -/
def ImageBigDataDigest (s : State) (ownerID name : String) : Except GoError Digest :=
  match ResolveImage s ownerID with
  | .error e => .error e
  | .ok owner =>
    match lookup (owner.ID, name) s.imageData with
    | none => .error NotFound
    | some entry =>
      match digest.Validate entry.digest with
      | some _ => .error InvalidDigest
      | none => .ok entry.digest

/-- Modelled from the spec: the side effect of a successful `Set` on the owner record
(the store is absent from the source files): the name joins `BigDataNames` if it is
not there yet. -/
def addBigDataName (ownerID name : String) (i : Image) : Image :=
  if i.ID = ownerID then
    { i with BigDataNames := if name ∈ i.BigDataNames then i.BigDataNames
                             else i.BigDataNames ++ [name] }
  else i

/-- Modelled from the spec: `Set` of section 4.2 for an image, absent from the source
files: rejected with `NotFound` or `ReadOnlyOwner`, aborted when `digestFn` fails,
and otherwise the bytes and the digest `digestFn` gives for them replace the entry. -/
def SetImageBigData (s : State) (ownerID name : String) (bytes : Bytes)
    (digestFn : Bytes → Except GoError Digest) : State × Option GoError :=
  match ResolveImage s ownerID with
  | .error e => (s, some e)
  | .ok owner =>
    if owner.ReadOnly then (s, some ReadOnlyOwner)
    else
      match digestFn bytes with
      | .error e => (s, some e)
      | .ok d =>
        ({ s with images := s.images.map (addBigDataName owner.ID name),
                  imageData := insert (owner.ID, name) ⟨bytes, d⟩ s.imageData }, none)

/-- Modelled from the spec: `List` of section 4.2 for a layer, absent from the source
files. -/
def ListLayerBigData (s : State) (ownerID : String) : Except GoError (List String) :=
  match ResolveLayer s ownerID with
  | .error e => .error e
  | .ok owner => .ok ((s.layerData.filter (fun e => e.1.1 = owner.ID)).map (fun e => e.1.2))

/-- Modelled from the spec: `Get` of section 4.2 for a layer, absent from the source
files. -/
def LayerBigData (s : State) (ownerID name : String) : Except GoError Reader :=
  match ResolveLayer s ownerID with
  | .error e => .error e
  | .ok owner =>
    match lookup (owner.ID, name) s.layerData with
    | none => .error NotFound
    | some b => .ok { data := b, err := none }

/-- Modelled from the spec: `Set` of section 4.2 for a layer, absent from the source
files: all or nothing, so a reader that fails leaves the state as it was. -/
def SetLayerBigData (s : State) (ownerID name : String) (input : Reader) :
    State × Option GoError :=
  match ResolveLayer s ownerID with
  | .error e => (s, some e)
  | .ok owner =>
    if owner.ReadOnly then (s, some ReadOnlyOwner)
    else
      match input.readAll with
      | .error e => (s, some e)
      | .ok b => ({ s with layerData := insert (owner.ID, name) b s.layerData }, none)

/-- Modelled from the spec: the ID index of the Metadata Store (section 4.1, absent from
the source files): the layer record with the given ID. -/
def lookupLayer (s : State) (id : String) : Option Layer :=
  s.layers.find? (fun l => l.ID = id)

/-- Modelled from the spec: the walk of section 4.3 (absent from the source files) up
the ancestor chain from the layer ID `id`, under a depth bound. -/
def ancestors (s : State) : Nat → String → List Layer
  | 0, _ => []
  | n + 1, id =>
    if id = "" then []
    else
      match lookupLayer s id with
      | none => []
      | some a => a :: ancestors s n a.Parent

/-- Modelled from the spec: the container IDs that a mapping declares (section 4.3,
absent from the source files): the union of the ranges
`[ContainerID, ContainerID+Size)` of its entries. -/
def declared (map : List IDMap) : List Int :=
  map.flatMap (fun e => (List.range e.Size.toNat).map (fun (i : Nat) => e.ContainerID + (i : Int)))

/-- Modelled from the spec: the test of section 4.3 (absent from the source files):
the ID falls inside a range that the mapping declares. -/
def covers (map : List IDMap) (c : Int) : Bool :=
  map.any (fun e => decide (e.ContainerID ≤ c) && decide (c < e.ContainerID + e.Size))

/-- Modelled from the spec: the collection step of section 4.3 (absent from the source
files): every ancestor-declared ID that the layer's own mapping does not cover joins
the result, once. -/
def unmapped (own : List IDMap) (ancestorMaps : List (List IDMap)) : List Int :=
  (ancestorMaps.flatMap declared).foldl
    (fun result c => if covers own c || decide (c ∈ result) then result else result ++ [c]) []

/-- Modelled from the spec: `ParentOwners` of section 4.3, absent from the source
files.  The depth bound of the walk is the number of layer records. -/
def LayerParentOwners (s : State) (layerID : String) : Except GoError (List Int × List Int) :=
  match ResolveLayer s layerID with
  | .error e => .error e
  | .ok l =>
    if l.Parent = "" then .ok ([], [])
    else
      let chain := ancestors s s.layers.length l.Parent
      .ok (unmapped l.UIDMap (chain.map (fun a => a.UIDMap)),
           unmapped l.GIDMap (chain.map (fun a => a.GIDMap)))

/-- The relation that the walk computes: the layer `a` is met walking up the parent
chain from the layer ID `id`. -/
inductive Reaches (s : State) : String → Layer → Prop where
  | here {id : String} {a : Layer} : id ≠ "" → lookupLayer s id = some a → Reaches s id a
  | up {id : String} {p a : Layer} :
      id ≠ "" → lookupLayer s id = some p → Reaches s p.Parent a → Reaches s id a

/-- The layer `a` is a proper ancestor of the layer `l`. -/
def ProperAncestor (s : State) (a l : Layer) : Prop :=
  Reaches s l.Parent a

/-- The ID `c` lies in `[ContainerID, ContainerID+Size)` of some entry of the mapping. -/
def InRange (map : List IDMap) (c : Int) : Prop :=
  ∃ e ∈ map, e.ContainerID ≤ c ∧ c < e.ContainerID + e.Size

/-- Modelled from the spec: the store as the commands see it.  The size of an image
(`ImageSize`) is not described by the specification and stays a parameter. -/
def store (imageSize : State → String → Except GoError Int) : Store State where
  Image := ResolveImage
  Layer := ResolveLayer
  ImageSize := imageSize
  ListImageBigData := ListImageBigData
  ImageBigData := ImageBigData
  ImageBigDataSize := ImageBigDataSize
  ImageBigDataDigest := ImageBigDataDigest
  SetImageBigData := SetImageBigData
  ListLayerBigData := ListLayerBigData
  LayerBigData := LayerBigData
  SetLayerBigData := SetLayerBigData
  LayerParentOwners := LayerParentOwners

end SpecStore

/-! ## What the text loops write -/

/-- The lines that the text loop of `image` writes for one record, in a store state. -/
def imageLines (m : Store σ) (st : σ) (image : Image) : List Output :=
  [Output.text ("ID: " ++ image.ID ++ "\n")]
    ++ image.Names.map (fun name => Output.text ("Name: " ++ name ++ "\n"))
    ++ [Output.text ("Top Layer: " ++ image.TopLayer ++ "\n")]
    ++ image.MappedTopLayers.map (fun layerID => Output.text ("Top Layer: " ++ layerID ++ "\n"))
    ++ image.Digests.map (fun digest => Output.text ("Digest: " ++ digest ++ "\n"))
    ++ image.BigDataNames.map (fun name => Output.text ("Data: " ++ name ++ "\n"))
    ++ [match m.ImageSize st image.ID with
        | .error err => Output.text ("Size unknown: " ++ err.plusV ++ "\n")
        | .ok size => Output.text ("Size: " ++ toString size ++ "\n")]
    ++ (if image.ReadOnly then [Output.text "Read Only: true\n"] else [])

/-- The lines that the text loop of `layer` writes for one record. -/
def layerLines (layer : Layer) : List Output :=
  [Output.text ("ID: " ++ layer.ID ++ "\n")]
    ++ layer.UIDMap.map (fun u => Output.text (mappingText "UID" u))
    ++ layer.GIDMap.map (fun g => Output.text (mappingText "GID" g))
    ++ (if layer.Parent ≠ "" then [Output.text ("Parent: " ++ layer.Parent ++ "\n")] else [])
    ++ layer.Names.map (fun name => Output.text ("Name: " ++ name ++ "\n"))
    ++ (if layer.ReadOnly then [Output.text "Read Only: true\n"] else [])

/-- The run from `w` to the result `r` left the store as it was, and the store
invocations it added to the record are all lookups: none is a setter. -/
def ReadOnlyRun (w : World σ) (r : Outcome × World σ) : Prop :=
  r.2.store = w.store ∧ ∃ new, r.2.calls = w.calls ++ new ∧ ∀ c ∈ new, c.isSet = false

/-- What `layerParentOwners` writes to the standard output for one layer, in a store
state: nothing when the owner computation fails there. -/
def ownersLines (m : Store σ) (st : σ) (json : Bool) (layer : Layer) : List Output :=
  match m.LayerParentOwners st layer.ID with
  | .error _ => []
  | .ok (uids, gids) =>
    if json then [Output.jsonOwners layer.ID uids gids]
    else
      [Output.text ("ID: " ++ layer.ID ++ "\n")]
        ++ (if uids.length > 0 then [Output.text ("UIDs: " ++ fmtInts uids ++ "\n")] else [])
        ++ (if gids.length > 0 then [Output.text ("GIDs: " ++ fmtInts gids ++ "\n")] else [])

/-- The owner computation succeeds for the layer. -/
def ownersOk (m : Store σ) (st : σ) (layer : Layer) : Bool :=
  match m.LayerParentOwners st layer.ID with
  | .error _ => false
  | .ok _ => true

/-- The batch property that every argument which resolves, and whose owner computation
succeeds, has its report on the standard output after the run. -/
def ReportsEverySuccess (m : Store σ) (args : List String) (w : World σ) : Prop :=
  ∀ arg ∈ args, ∀ l, m.Layer w.store arg = .ok l → ownersOk m w.store l = true →
    ∀ o ∈ ownersLines m w.store w.jsonOutput l, o ∈ (layerParentOwners m args w).2.stdout

/-! ## Concrete stores and worlds -/

/-- A layer record with nothing but an ID. -/
def bareLayer (id : String) : Layer :=
  { ID := id, Parent := "", Names := [], UIDMap := [], GIDMap := [], ReadOnly := false }

/-- A store with two layers, `a` and `b`: the owner computation fails for `a` and
succeeds for `b`.  Every other method reports an error and the setters change nothing. -/
def failingOwnersStore : Store Unit where
  Image := fun _ _ => .error ⟨"image not known", "image not known"⟩
  Layer := fun _ arg =>
    if arg = "a" ∨ arg = "b" then .ok (bareLayer arg) else .error ⟨"layer not known", "layer not known"⟩
  ImageSize := fun _ _ => .error ⟨"image not known", "image not known"⟩
  ListImageBigData := fun _ _ => .error ⟨"image not known", "image not known"⟩
  ImageBigData := fun _ _ _ => .error ⟨"image not known", "image not known"⟩
  ImageBigDataSize := fun _ _ _ => .error ⟨"image not known", "image not known"⟩
  ImageBigDataDigest := fun _ _ _ => .error ⟨"image not known", "image not known"⟩
  SetImageBigData := fun st _ _ _ _ => (st, some ⟨"image not known", "image not known"⟩)
  ListLayerBigData := fun _ _ => .ok []
  LayerBigData := fun _ _ _ => .error ⟨"no such data", "no such data"⟩
  SetLayerBigData := fun st _ _ _ => (st, some ⟨"read-only", "read-only"⟩)
  LayerParentOwners := fun _ id =>
    if id = "a" then .error ⟨"layer not mounted", "layer not mounted"⟩ else .ok ([1], [2])

/-- A world around a store state: nothing on the streams yet, three bytes to read on the
standard input, no file that opens, the flag variables at their defaults. -/
def startWorld (st : σ) : World σ where
  store := st
  calls := []
  stdin := { data := [1, 2, 3], err := none }
  stdout := []
  stderr := []
  files := fun _ =>
    { data := [], openErr := some ⟨"no such file or directory", "no such file or directory"⟩,
      readErr := none, createErr := none }
  jsonOutput := false
  paramImageDataFile := ""
  paramLayerDataFile := ""

namespace SpecStore

/-- A state of the store of the specification: one image, and the layer chain
`root -> A -> B` with the mappings `{0,0,3}` for `root`, `{0,10,3}` for `A` and none
for `B`. -/
def chainState : State where
  images :=
    [{ ID := "img1", Names := ["busybox"], TopLayer := "B", MappedTopLayers := [],
       Digests := [], BigDataNames := [], ReadOnly := false }]
  layers :=
    [{ ID := "root", Parent := "", Names := [], ReadOnly := false,
       UIDMap := [{ ContainerID := 0, HostID := 0, Size := 3 }],
       GIDMap := [{ ContainerID := 0, HostID := 0, Size := 3 }] },
     { ID := "A", Parent := "root", Names := [], ReadOnly := false,
       UIDMap := [{ ContainerID := 0, HostID := 10, Size := 3 }],
       GIDMap := [{ ContainerID := 0, HostID := 10, Size := 3 }] },
     { ID := "B", Parent := "A", Names := ["top"], ReadOnly := false,
       UIDMap := [], GIDMap := [] }]
  imageData := []
  layerData := []

/-- An `ImageSize` that knows no size. -/
def noSize : State → String → Except GoError Int :=
  fun _ _ => .error ⟨"size not known", "size not known"⟩

end SpecStore

namespace SpecStore

/-- The layer that the walk meets first from a layer ID: none for the empty ID of a
root's parent, or for an ID that no record has. -/
def first (s : State) (id : String) : Option Layer :=
  if id = "" then none else lookupLayer s id

/-- The layer that the walk meets after a layer: its parent. -/
def next (s : State) (o : Option Layer) : Option Layer :=
  o.bind (fun p => first s p.Parent)

end SpecStore

/-! # Theorems -/

/-! ## Resolution loops -/

theorem foldl_matchImages (m : Store σ) (args : List String) (acc : List Image) (w : World σ) :
    args.foldl (fun (acc : List Image × World σ) arg =>
      let w := acc.2.call (.Image arg)
      match m.Image w.store arg with
      | .ok image => (acc.1 ++ [image], w)
      | .error _ => (acc.1, w)) (acc, w)
    = (acc ++ args.filterMap (fun a => (m.Image w.store a).toOption),
       { w with calls := w.calls ++ args.map StoreCall.Image }) := by
  induction args generalizing acc w with
  | nil => simp
  | cons a rest ih =>
    simp only [List.foldl_cons, List.filterMap_cons, List.map_cons]
    cases h : m.Image w.store a with
    | error e =>
      have h2 : m.Image (w.call (.Image a)).store a = .error e := h
      simp only [h2, ih, Except.toOption]
      simp [World.call]
    | ok i =>
      have h2 : m.Image (w.call (.Image a)).store a = .ok i := h
      simp only [h2, ih, Except.toOption]
      simp [World.call]

theorem matchImages_eq (m : Store σ) (args : List String) (w : World σ) :
    matchImages m args w
    = (args.filterMap (fun a => (m.Image w.store a).toOption),
       { w with calls := w.calls ++ args.map StoreCall.Image }) := by
  unfold matchImages
  rw [foldl_matchImages]
  simp

theorem length_filterMap_eq_iff {α β : Type} (f : α → Option β) (l : List α) :
    (l.filterMap f).length = l.length ↔ ∀ a ∈ l, ∃ b, f a = some b := by
  induction l with
  | nil => simp
  | cons a rest ih =>
    have hle := List.length_filterMap_le f rest
    cases h : f a with
    | none =>
      simp only [List.filterMap_cons, h, List.length_cons, List.mem_cons, forall_eq_or_imp]
      constructor
      · intro h1; omega
      · rintro ⟨⟨b, hb⟩, _⟩; cases hb
    | some b =>
      simp only [List.filterMap_cons, h, List.length_cons, List.mem_cons, forall_eq_or_imp]
      constructor
      · intro h1
        exact ⟨⟨b, rfl⟩, ih.mp (by omega)⟩
      · rintro ⟨_, h2⟩
        rw [ih.mpr h2]

theorem foldl_matchLayers (m : Store σ) (args : List String) (acc : List Layer) (w : World σ) :
    args.foldl (fun (acc : List Layer × World σ) arg =>
      let w := acc.2.call (.Layer arg)
      match m.Layer w.store arg with
      | .ok layer => (acc.1 ++ [layer], w)
      | .error _ => (acc.1, w)) (acc, w)
    = (acc ++ args.filterMap (fun a => (m.Layer w.store a).toOption),
       { w with calls := w.calls ++ args.map StoreCall.Layer }) := by
  induction args generalizing acc w with
  | nil => simp
  | cons a rest ih =>
    simp only [List.foldl_cons, List.filterMap_cons, List.map_cons]
    cases h : m.Layer w.store a with
    | error e =>
      have h2 : m.Layer (w.call (.Layer a)).store a = .error e := h
      simp only [h2, ih, Except.toOption]
      simp [World.call]
    | ok i =>
      have h2 : m.Layer (w.call (.Layer a)).store a = .ok i := h
      simp only [h2, ih, Except.toOption]
      simp [World.call]

theorem matchLayers_eq (m : Store σ) (args : List String) (w : World σ) :
    matchLayers m args w
    = (args.filterMap (fun a => (m.Layer w.store a).toOption),
       { w with calls := w.calls ++ args.map StoreCall.Layer }) := by
  unfold matchLayers
  rw [foldl_matchLayers]
  simp

theorem toOption_eq_some_iff {α : Type} (r : Except GoError α) (b : α) :
    r.toOption = some b ↔ r = .ok b := by
  cases r <;> simp [Except.toOption]

theorem image_status (m : Store σ) (args : List String) (w : World σ) :
    (image m args w).1 =
      if (matchImages m args w).1.length = args.length then .exit 0 else .exit 1 := by
  unfold image
  by_cases h : (matchImages m args w).1.length = args.length <;> simp [h]

theorem layer_status (m : Store σ) (args : List String) (w : World σ) :
    (layer m args w).1 =
      if (matchLayers m args w).1.length = args.length then .exit 0 else .exit 1 := by
  unfold layer
  by_cases h : (matchLayers m args w).1.length = args.length <;> simp [h]

theorem matchImages_length_iff (m : Store σ) (args : List String) (w : World σ) :
    (matchImages m args w).1.length = args.length ↔
      ∀ arg ∈ args, ∃ r, m.Image w.store arg = .ok r := by
  rw [matchImages_eq]
  simp only [length_filterMap_eq_iff, toOption_eq_some_iff]

theorem matchLayers_length_iff (m : Store σ) (args : List String) (w : World σ) :
    (matchLayers m args w).1.length = args.length ↔
      ∀ arg ∈ args, ∃ r, m.Layer w.store arg = .ok r := by
  rw [matchLayers_eq]
  simp only [length_filterMap_eq_iff, toOption_eq_some_iff]

theorem matchImages_jsonOutput (m : Store σ) (args : List String) (w : World σ) (b : Bool) :
    (matchImages m args { w with jsonOutput := b }).1 = (matchImages m args w).1 := by
  simp [matchImages_eq]

theorem matchLayers_jsonOutput (m : Store σ) (args : List String) (w : World σ) (b : Bool) :
    (matchLayers m args { w with jsonOutput := b }).1 = (matchLayers m args w).1 := by
  simp [matchLayers_eq]

/-! ## C1 -/

/-- C1: for every store, argument list and world, `image` (and likewise `layer`) ends
with exit status 0 exactly when every argument resolves to a record, and with status
1 otherwise; the status is 0 exactly when the number of resolved records equals the
number of arguments, and it is the same whatever the value of `jsonOutput`. -/
theorem image_layer_exit_status (m : Store σ) (args : List String) (w : World σ) :
    (((image m args w).1 = .exit 0 ↔ ∀ arg ∈ args, ∃ r, m.Image w.store arg = .ok r) ∧
     ((image m args w).1 = .exit 1 ↔ ¬ ∀ arg ∈ args, ∃ r, m.Image w.store arg = .ok r) ∧
     ((image m args w).1 = .exit 0 ↔ (matchImages m args w).1.length = args.length) ∧
     ∀ b : Bool, (image m args { w with jsonOutput := b }).1 = (image m args w).1) ∧
    (((layer m args w).1 = .exit 0 ↔ ∀ arg ∈ args, ∃ r, m.Layer w.store arg = .ok r) ∧
     ((layer m args w).1 = .exit 1 ↔ ¬ ∀ arg ∈ args, ∃ r, m.Layer w.store arg = .ok r) ∧
     ((layer m args w).1 = .exit 0 ↔ (matchLayers m args w).1.length = args.length) ∧
     ∀ b : Bool, (layer m args { w with jsonOutput := b }).1 = (layer m args w).1) := by
  refine ⟨⟨?_, ?_, ?_, ?_⟩, ⟨?_, ?_, ?_, ?_⟩⟩
  · rw [image_status, ← matchImages_length_iff]
    by_cases h : (matchImages m args w).1.length = args.length <;> simp [h]
  · rw [image_status, ← matchImages_length_iff]
    by_cases h : (matchImages m args w).1.length = args.length <;> simp [h]
  · rw [image_status]
    by_cases h : (matchImages m args w).1.length = args.length <;> simp [h]
  · intro b
    rw [image_status, image_status, matchImages_jsonOutput]
  · rw [layer_status, ← matchLayers_length_iff]
    by_cases h : (matchLayers m args w).1.length = args.length <;> simp [h]
  · rw [layer_status, ← matchLayers_length_iff]
    by_cases h : (matchLayers m args w).1.length = args.length <;> simp [h]
  · rw [layer_status]
    by_cases h : (matchLayers m args w).1.length = args.length <;> simp [h]
  · intro b
    rw [layer_status, layer_status, matchLayers_jsonOutput]

/-! ## C2 -/

theorem foldl_printf {α : Type} (f : α → String) (l : List α) (w : World σ) :
    l.foldl (fun w x => w.printf (f x)) w
    = { w with stdout := w.stdout ++ l.map (fun x => Output.text (f x)) } := by
  induction l generalizing w with
  | nil => simp
  | cons a rest ih =>
    simp only [List.foldl_cons, ih, List.map_cons]
    simp [World.printf]

theorem imageText_eq (m : Store σ) (w : World σ) (image : Image) :
    imageText m w image
    = { w with stdout := w.stdout ++ imageLines m w.store image,
               calls := w.calls ++ [StoreCall.ImageSize image.ID] } := by
  unfold imageText imageLines
  simp only [foldl_printf]
  cases h : m.ImageSize w.store image.ID <;> cases hr : image.ReadOnly <;>
    simp [World.printf, World.call, h]

theorem layerText_eq (w : World σ) (layer : Layer) :
    layerText w layer = { w with stdout := w.stdout ++ layerLines layer } := by
  unfold layerText layerLines
  simp only [foldl_printf]
  by_cases hp : layer.Parent = "" <;> cases hr : layer.ReadOnly <;>
    simp [World.printf, hp]

theorem foldl_imageText (m : Store σ) (matched : List Image) (w : World σ) :
    matched.foldl (imageText m) w
    = { w with stdout := w.stdout ++ matched.flatMap (imageLines m w.store),
               calls := w.calls ++ matched.map (fun i => StoreCall.ImageSize i.ID) } := by
  induction matched generalizing w with
  | nil => simp
  | cons a rest ih =>
    simp only [List.foldl_cons, ih, imageText_eq]
    simp

theorem foldl_layerText (matched : List Layer) (w : World σ) :
    matched.foldl layerText w
    = { w with stdout := w.stdout ++ matched.flatMap layerLines } := by
  induction matched generalizing w with
  | nil => simp
  | cons a rest ih =>
    simp only [List.foldl_cons, ih, layerText_eq]
    simp

theorem image_world (m : Store σ) (args : List String) (w : World σ) :
    (image m args w).2 =
      if w.jsonOutput then
        { w with calls := w.calls ++ args.map StoreCall.Image,
                 stdout := w.stdout ++ [Output.jsonImages (matchImages m args w).1] }
      else
        { w with calls := w.calls ++ args.map StoreCall.Image
                   ++ (matchImages m args w).1.map (fun i => StoreCall.ImageSize i.ID),
                 stdout := w.stdout ++ (matchImages m args w).1.flatMap (imageLines m w.store) } := by
  unfold image
  rw [matchImages_eq]
  cases hj : w.jsonOutput <;>
    by_cases hl : (args.filterMap (fun a => (m.Image w.store a).toOption)).length = args.length <;>
    simp [hj, hl, World.encode, foldl_imageText]

theorem layer_world (m : Store σ) (args : List String) (w : World σ) :
    (layer m args w).2 =
      { w with calls := w.calls ++ args.map StoreCall.Layer,
               stdout := w.stdout ++
                 (if w.jsonOutput then [Output.jsonLayers (matchLayers m args w).1]
                  else (matchLayers m args w).1.flatMap layerLines) } := by
  unfold layer
  rw [matchLayers_eq]
  cases hj : w.jsonOutput <;>
    by_cases hl : (args.filterMap (fun a => (m.Layer w.store a).toOption)).length = args.length <;>
    simp [hj, hl, World.encode, foldl_layerText]

/-- C2: the records that `image` (resp. `layer`) renders are the arguments resolved in
order with the successes kept: the matched list is the `filterMap` of the resolution
over the arguments, the standard output grows by exactly the rendering of that list
(one JSON value, or the text block of each record in order), and every argument that
resolves has its record in the list, whatever the other arguments do. -/
theorem image_layer_rendered (m : Store σ) (args : List String) (w : World σ) :
    ((matchImages m args w).1 = args.filterMap (fun a => (m.Image w.store a).toOption) ∧
     (image m args w).2.stdout = w.stdout ++
       (if w.jsonOutput then [Output.jsonImages (matchImages m args w).1]
        else (matchImages m args w).1.flatMap (imageLines m w.store)) ∧
     (∀ pre post : List String, ∀ arg r, args = pre ++ arg :: post →
        m.Image w.store arg = .ok r →
        (matchImages m args w).1 =
          (matchImages m pre w).1 ++ r :: (matchImages m post w).1)) ∧
    ((matchLayers m args w).1 = args.filterMap (fun a => (m.Layer w.store a).toOption) ∧
     (layer m args w).2.stdout = w.stdout ++
       (if w.jsonOutput then [Output.jsonLayers (matchLayers m args w).1]
        else (matchLayers m args w).1.flatMap layerLines) ∧
     (∀ pre post : List String, ∀ arg r, args = pre ++ arg :: post →
        m.Layer w.store arg = .ok r →
        (matchLayers m args w).1 =
          (matchLayers m pre w).1 ++ r :: (matchLayers m post w).1)) := by
  refine ⟨⟨?_, ?_, ?_⟩, ⟨?_, ?_, ?_⟩⟩
  · rw [matchImages_eq]
  · rw [image_world]
    cases hj : w.jsonOutput <;> simp
  · intro pre post arg r hargs hr
    subst hargs
    simp [matchImages_eq, List.filterMap_append, hr, Except.toOption]
  · rw [matchLayers_eq]
  · rw [layer_world]
  · intro pre post arg r hargs hr
    subst hargs
    simp [matchLayers_eq, List.filterMap_append, hr, Except.toOption]

/-! ## C3 -/

/-- C3: `getImageBigDataDigest` on an image argument and a data name ends with status 0
exactly when the image resolves, `m.ImageBigDataDigest` succeeds and the digest it
returns passes `Validate`, and it then writes that digest string (and a newline) to the
standard output; when the returned digest fails `Validate` the status is 1 and nothing
reaches the standard output, as on every other failure.  The digest written is the one
the store returned: the command calls only `Image` and `ImageBigDataDigest`, never
reads the blob, and leaves the store as it was. -/
theorem getImageBigDataDigest_validates (m : Store σ) (imageArg dataName : String)
    (rest : List String) (w : World σ) :
    ((getImageBigDataDigest m (imageArg :: dataName :: rest) w).1 = .exit 0 ↔
      ∃ image d, m.Image w.store imageArg = .ok image ∧
        m.ImageBigDataDigest w.store image.ID dataName = .ok d ∧ digest.Validate d = none) ∧
    (∀ image d, m.Image w.store imageArg = .ok image →
      m.ImageBigDataDigest w.store image.ID dataName = .ok d →
      (digest.Validate d = none →
        (getImageBigDataDigest m (imageArg :: dataName :: rest) w).1 = .exit 0 ∧
        (getImageBigDataDigest m (imageArg :: dataName :: rest) w).2.stdout
          = w.stdout ++ [Output.text (d ++ "\n")]) ∧
      (digest.Validate d ≠ none →
        (getImageBigDataDigest m (imageArg :: dataName :: rest) w).1 = .exit 1 ∧
        (getImageBigDataDigest m (imageArg :: dataName :: rest) w).2.stdout = w.stdout)) ∧
    ((getImageBigDataDigest m (imageArg :: dataName :: rest) w).1 ≠ .exit 0 →
      (getImageBigDataDigest m (imageArg :: dataName :: rest) w).1 = .exit 1 ∧
      (getImageBigDataDigest m (imageArg :: dataName :: rest) w).2.stdout = w.stdout) ∧
    (∀ c ∈ (getImageBigDataDigest m (imageArg :: dataName :: rest) w).2.calls,
      c ∈ w.calls ∨ c = StoreCall.Image imageArg ∨
        ∃ id, c = StoreCall.ImageBigDataDigest id dataName) ∧
    (getImageBigDataDigest m (imageArg :: dataName :: rest) w).2.store = w.store := by
  simp only [getImageBigDataDigest, List.getElem?_cons_zero, List.getElem?_cons_succ]
  cases h1 : m.Image w.store imageArg with
  | error e =>
    simp [World.call, World.eprintf, h1]
    tauto
  | ok image =>
    cases h2 : m.ImageBigDataDigest w.store image.ID dataName with
    | error e =>
      simp [World.call, World.eprintf, h1, h2]
      refine ⟨?_, ?_⟩
      · intro i d hi hd
        subst hi
        rw [h2] at hd
        cases hd
      · intro c hc
        rcases hc with h | h | h
        · exact .inl h
        · exact .inr (.inl h)
        · exact .inr (.inr ⟨_, h⟩)
    | ok d =>
      cases h3 : digest.Validate d with
      | some e =>
        simp [World.call, World.eprintf, h1, h2, h3]
        refine ⟨?_, ?_⟩
        · intro i d2 hi hd
          subst hi
          rw [h2] at hd
          cases hd
          simp [h3]
        · intro c hc
          rcases hc with h | h | h
          · exact .inl h
          · exact .inr (.inl h)
          · exact .inr (.inr ⟨_, h⟩)
      | none =>
        simp [World.call, World.printf, h1, h2, h3]
        refine ⟨?_, ?_⟩
        · intro i d2 hi hd
          subst hi
          rw [h2] at hd
          cases hd
          simp [h3]
        · intro c hc
          rcases hc with h | h | h
          · exact .inl h
          · exact .inr (.inl h)
          · exact .inr (.inr ⟨_, h⟩)

/-! ## C4 -/

@[simp] theorem call_store (w : World σ) (c : StoreCall) : (w.call c).store = w.store := rfl

@[simp] theorem call_calls (w : World σ) (c : StoreCall) : (w.call c).calls = w.calls ++ [c] := rfl

@[simp] theorem call_jsonOutput (w : World σ) (c : StoreCall) :
    (w.call c).jsonOutput = w.jsonOutput := rfl

@[simp] theorem call_paramImageDataFile (w : World σ) (c : StoreCall) :
    (w.call c).paramImageDataFile = w.paramImageDataFile := rfl

@[simp] theorem call_paramLayerDataFile (w : World σ) (c : StoreCall) :
    (w.call c).paramLayerDataFile = w.paramLayerDataFile := rfl

@[simp] theorem openInput_call (w : World σ) (c : StoreCall) (p : String) :
    openInput (w.call c) p = openInput w p := rfl

theorem readAll_eq_ok (input : Reader) (b : Bytes) (h : input.readAll = .ok b) :
    b = input.data ∧ input.err = none := by
  unfold Reader.readAll at h
  cases he : input.err with
  | none => rw [he] at h; cases h; exact ⟨rfl, rfl⟩
  | some e => rw [he] at h; cases h

/-- C4: the set commands write only against a resolved record.  When `args[0]`
resolves, the input opens and is read to the end, `setImageBigData` calls
`m.SetImageBigData` exactly once (its calls are `Image`, then that one), with the ID
of the resolved record, `args[1]`, the bytes read and `wrongManifestDigest`; when one
of the three steps fails it makes no such call, ends with status 1 and leaves the
store as it was.  `setLayerBigData` calls `m.SetLayerBigData` once, with the resolved
layer's ID, `args[1]` and the input, when the layer resolves and the input opens,
and not at all otherwise.  Either command ends with status 0 exactly when the call
was made and reported no error. -/
theorem set_commands_write_resolved (m : Store σ) (arg0 arg1 : String) (rest : List String)
    (w : World σ) :
    ((∀ image input b, m.Image w.store arg0 = .ok image →
        openInput w w.paramImageDataFile = .ok input → input.readAll = .ok b →
        b = input.data ∧
        (setImageBigData m (arg0 :: arg1 :: rest) w).2.calls = w.calls ++
          [StoreCall.Image arg0, StoreCall.SetImageBigData image.ID arg1 b wrongManifestDigest] ∧
        (setImageBigData m (arg0 :: arg1 :: rest) w).2.store
          = (m.SetImageBigData w.store image.ID arg1 b wrongManifestDigest).1 ∧
        ((setImageBigData m (arg0 :: arg1 :: rest) w).1 = .exit 0 ↔
          (m.SetImageBigData w.store image.ID arg1 b wrongManifestDigest).2 = none) ∧
        ((setImageBigData m (arg0 :: arg1 :: rest) w).1 = .exit 1 ↔
          (m.SetImageBigData w.store image.ID arg1 b wrongManifestDigest).2 ≠ none)) ∧
     ((¬ ∃ image input b, m.Image w.store arg0 = .ok image ∧
          openInput w w.paramImageDataFile = .ok input ∧ input.readAll = .ok b) →
        (setImageBigData m (arg0 :: arg1 :: rest) w).2.calls = w.calls ++ [StoreCall.Image arg0] ∧
        (setImageBigData m (arg0 :: arg1 :: rest) w).1 = .exit 1 ∧
        (setImageBigData m (arg0 :: arg1 :: rest) w).2.store = w.store)) ∧
    ((∀ layer input, m.Layer w.store arg0 = .ok layer →
        openInput w w.paramLayerDataFile = .ok input →
        (setLayerBigData m (arg0 :: arg1 :: rest) w).2.calls = w.calls ++
          [StoreCall.Layer arg0, StoreCall.SetLayerBigData layer.ID arg1 input] ∧
        (setLayerBigData m (arg0 :: arg1 :: rest) w).2.store
          = (m.SetLayerBigData w.store layer.ID arg1 input).1 ∧
        ((setLayerBigData m (arg0 :: arg1 :: rest) w).1 = .exit 0 ↔
          (m.SetLayerBigData w.store layer.ID arg1 input).2 = none) ∧
        ((setLayerBigData m (arg0 :: arg1 :: rest) w).1 = .exit 1 ↔
          (m.SetLayerBigData w.store layer.ID arg1 input).2 ≠ none)) ∧
     ((¬ ∃ layer input, m.Layer w.store arg0 = .ok layer ∧
          openInput w w.paramLayerDataFile = .ok input) →
        (setLayerBigData m (arg0 :: arg1 :: rest) w).2.calls = w.calls ++ [StoreCall.Layer arg0] ∧
        (setLayerBigData m (arg0 :: arg1 :: rest) w).1 = .exit 1 ∧
        (setLayerBigData m (arg0 :: arg1 :: rest) w).2.store = w.store)) := by
  refine ⟨⟨?_, ?_⟩, ⟨?_, ?_⟩⟩
  · intro image input b h1 h2 h3
    refine ⟨(readAll_eq_ok input b h3).1, ?_⟩
    simp only [setImageBigData, List.getElem?_cons_zero, List.getElem?_cons_succ,
      call_store, call_paramImageDataFile, openInput_call, h1, h2, h3]
    cases h4 : (m.SetImageBigData w.store image.ID arg1 b wrongManifestDigest).2 with
    | none => simp [World.call]
    | some e => simp [World.call, World.eprintf]
  · intro hno
    simp only [setImageBigData, List.getElem?_cons_zero, List.getElem?_cons_succ,
      call_store, call_paramImageDataFile, openInput_call]
    cases h1 : m.Image w.store arg0 with
    | error e => simp [World.call, World.eprintf]
    | ok image =>
      cases h2 : openInput w w.paramImageDataFile with
      | error e => simp [World.call, World.eprintf]
      | ok input =>
        cases h3 : input.readAll with
        | error e => simp [World.call, World.eprintf, h3]
        | ok b => exact absurd ⟨image, input, b, h1, h2, h3⟩ hno
  · intro layer input h1 h2
    simp only [setLayerBigData, List.getElem?_cons_zero, List.getElem?_cons_succ,
      call_store, call_paramLayerDataFile, openInput_call, h1, h2]
    cases h4 : (m.SetLayerBigData w.store layer.ID arg1 input).2 with
    | none => simp [World.call]
    | some e => simp [World.call, World.eprintf]
  · intro hno
    simp only [setLayerBigData, List.getElem?_cons_zero, List.getElem?_cons_succ,
      call_store, call_paramLayerDataFile, openInput_call]
    cases h1 : m.Layer w.store arg0 with
    | error e => simp [World.call, World.eprintf]
    | ok layer =>
      cases h2 : openInput w w.paramLayerDataFile with
      | error e => simp [World.call, World.eprintf]
      | ok input => exact absurd ⟨layer, input, h1, h2⟩ hno

/-! ## C8 -/

theorem foldl_printf_store {α : Type} (f : α → String) (l : List α) (w : World σ) :
    (l.foldl (fun w x => w.printf (f x)) w).store = w.store := by
  rw [foldl_printf]

theorem foldl_printf_calls {α : Type} (f : α → String) (l : List α) (w : World σ) :
    (l.foldl (fun w x => w.printf (f x)) w).calls = w.calls := by
  rw [foldl_printf]

theorem osCreate_frame (w w2 : World σ) (path : String) (h : w.osCreate path = .ok w2) :
    w2.store = w.store ∧ w2.calls = w.calls := by
  unfold World.osCreate at h
  split at h
  · cases h
  · simp only [Except.ok.injEq] at h
    subst h
    exact ⟨rfl, rfl⟩

theorem openOutput_frame (w w2 : World σ) (param : String) (output : OutputFile)
    (h : openOutput w param = .ok (output, w2)) :
    w2.store = w.store ∧ w2.calls = w.calls := by
  unfold openOutput at h
  split at h
  · cases hc : w.osCreate param with
    | error e => rw [hc] at h; cases h
    | ok w3 =>
      rw [hc] at h
      simp only [Except.ok.injEq, Prod.mk.injEq] at h
      obtain ⟨_, h2⟩ := h
      subst h2
      exact osCreate_frame w w3 param hc
  · simp only [Except.ok.injEq, Prod.mk.injEq] at h
    obtain ⟨_, h2⟩ := h
    subst h2
    exact ⟨rfl, rfl⟩

theorem write_store (w : World σ) (output : OutputFile) (b : Bytes) :
    (w.write output b).store = w.store := by
  cases output <;> rfl

theorem write_calls (w : World σ) (output : OutputFile) (b : Bytes) :
    (w.write output b).calls = w.calls := by
  cases output <;> rfl


theorem listImageBigData_readOnly (m : Store σ) (args : List String) (w : World σ) :
    ReadOnlyRun w (listImageBigData m args w) := by
  unfold ReadOnlyRun listImageBigData
  split
  · simp
  · simp only [call_store]
    split
    · simp [World.call, World.eprintf, StoreCall.isSet]
    · split
      · simp [World.call, World.eprintf, StoreCall.isSet]
      · split <;> simp [World.call, World.eprintf, World.encode, foldl_printf, StoreCall.isSet]

theorem getImageBigData_readOnly (m : Store σ) (args : List String) (w : World σ) :
    ReadOnlyRun w (getImageBigData m args w) := by
  unfold ReadOnlyRun getImageBigData
  split
  · simp
  · simp only [call_store]
    split
    · simp [World.call, World.eprintf, StoreCall.isSet]
    · split
      · simp [World.call, World.eprintf, StoreCall.isSet]
      · rename_i h
        have hf := openOutput_frame _ _ _ _ h
        simp only [call_store, call_calls] at hf
        split
        · simp [hf, StoreCall.isSet]
        · simp only [call_store, hf]
          split
          · simp [World.call, World.eprintf, StoreCall.isSet, hf]
          · simp [World.call, World.eprintf, StoreCall.isSet, hf, write_store, write_calls]

theorem getImageBigDataSize_readOnly (m : Store σ) (args : List String) (w : World σ) :
    ReadOnlyRun w (getImageBigDataSize m args w) := by
  unfold ReadOnlyRun getImageBigDataSize
  split
  · simp
  · simp only [call_store]
    split
    · simp [World.call, World.eprintf, StoreCall.isSet]
    · split
      · simp [World.call, StoreCall.isSet]
      · try simp only [call_store]
        split <;> simp [World.call, World.eprintf, World.printf, StoreCall.isSet]

theorem getImageBigDataDigest_readOnly (m : Store σ) (args : List String) (w : World σ) :
    ReadOnlyRun w (getImageBigDataDigest m args w) := by
  unfold ReadOnlyRun getImageBigDataDigest
  split
  · simp
  · simp only [call_store]
    split
    · simp [World.call, World.eprintf, StoreCall.isSet]
    · split
      · simp [World.call, StoreCall.isSet]
      · try simp only [call_store]
        split
        · simp [World.call, World.eprintf, StoreCall.isSet]
        · split <;> simp [World.call, World.eprintf, World.printf, StoreCall.isSet]

theorem listLayerBigData_readOnly (m : Store σ) (args : List String) (w : World σ) :
    ReadOnlyRun w (listLayerBigData m args w) := by
  unfold ReadOnlyRun listLayerBigData
  split
  · simp
  · simp only [call_store]
    split
    · simp [World.call, World.eprintf, StoreCall.isSet]
    · split
      · simp [World.call, World.eprintf, StoreCall.isSet]
      · split <;> simp [World.call, World.eprintf, World.encode, foldl_printf, StoreCall.isSet]

theorem getLayerBigData_readOnly (m : Store σ) (args : List String) (w : World σ) :
    ReadOnlyRun w (getLayerBigData m args w) := by
  unfold ReadOnlyRun getLayerBigData
  split
  · simp
  · simp only [call_store]
    split
    · simp [World.call, World.eprintf, StoreCall.isSet]
    · split
      · simp [World.call, World.eprintf, StoreCall.isSet]
      · rename_i h
        have hf := openOutput_frame _ _ _ _ h
        simp only [call_store, call_calls] at hf
        split
        · simp [hf, StoreCall.isSet]
        · simp only [call_store, hf]
          split
          · simp [World.call, World.eprintf, StoreCall.isSet, hf]
          · split <;>
              simp [World.call, World.eprintf, StoreCall.isSet, hf, write_store, write_calls]

theorem image_readOnly (m : Store σ) (args : List String) (w : World σ) :
    ReadOnlyRun w (image m args w) := by
  unfold ReadOnlyRun
  rw [image_world]
  by_cases hj : w.jsonOutput = true
  · rw [if_pos hj]
    refine ⟨rfl, _, rfl, ?_⟩
    intro c hc
    simp only [List.mem_map] at hc
    rcases hc with ⟨a, _, rfl⟩
    rfl
  · rw [if_neg hj]
    refine ⟨rfl, _, List.append_assoc _ _ _, ?_⟩
    intro c hc
    simp only [List.mem_append, List.mem_map] at hc
    rcases hc with ⟨a, _, rfl⟩ | ⟨i, _, rfl⟩ <;> rfl

theorem layer_readOnly (m : Store σ) (args : List String) (w : World σ) :
    ReadOnlyRun w (layer m args w) := by
  unfold ReadOnlyRun
  rw [layer_world]
  refine ⟨rfl, _, rfl, ?_⟩
  intro c hc
  simp only [List.mem_map] at hc
  rcases hc with ⟨a, _, rfl⟩
  rfl

theorem ownersReport_store (w : World σ) (layer : Layer) (uids gids : List Int) :
    (ownersReport w layer uids gids).store = w.store := by
  unfold ownersReport
  split
  · rfl
  · split <;> split <;> rfl

theorem ownersReport_calls (w : World σ) (layer : Layer) (uids gids : List Int) :
    (ownersReport w layer uids gids).calls = w.calls := by
  unfold ownersReport
  split
  · rfl
  · split <;> split <;> rfl

theorem ownersLoop_frame (m : Store σ) (matched : List Layer) (w : World σ) :
    (ownersLoop m matched w).2.store = w.store ∧
    ∃ new, (ownersLoop m matched w).2.calls = w.calls ++ new ∧ ∀ c ∈ new, c.isSet = false := by
  induction matched generalizing w with
  | nil => exact ⟨rfl, [], by simp [ownersLoop], by simp⟩
  | cons l rest ih =>
    unfold ownersLoop
    simp only [call_store]
    split
    · exact ⟨rfl, [StoreCall.LayerParentOwners l.ID], rfl, by simp [StoreCall.isSet]⟩
    · rename_i uids gids _
      obtain ⟨hs, new, hc, hn⟩ :=
        ih (ownersReport (w.call (StoreCall.LayerParentOwners l.ID)) l uids gids)
      refine ⟨by rw [hs, ownersReport_store]; rfl, StoreCall.LayerParentOwners l.ID :: new, ?_, ?_⟩
      · rw [hc, ownersReport_calls]
        simp
      · intro c hcm
        rcases List.mem_cons.mp hcm with rfl | h
        · rfl
        · exact hn c h

theorem layerParentOwners_readOnly (m : Store σ) (args : List String) (w : World σ) :
    ReadOnlyRun w (layerParentOwners m args w) := by
  unfold ReadOnlyRun layerParentOwners
  rw [matchLayers_eq]
  obtain ⟨hs, new, hc, hn⟩ := ownersLoop_frame m
    (args.filterMap (fun a => (m.Layer w.store a).toOption))
    { w with calls := w.calls ++ args.map StoreCall.Layer }
  have hres : ∀ o : Outcome,
      (o, (ownersLoop m (args.filterMap (fun a => (m.Layer w.store a).toOption))
        { w with calls := w.calls ++ args.map StoreCall.Layer }).2).2.store = w.store ∧
      ∃ new2, (o, (ownersLoop m (args.filterMap (fun a => (m.Layer w.store a).toOption))
        { w with calls := w.calls ++ args.map StoreCall.Layer }).2).2.calls = w.calls ++ new2 ∧
        ∀ c ∈ new2, c.isSet = false := by
    intro o
    refine ⟨hs, args.map StoreCall.Layer ++ new, ?_, ?_⟩
    · simp only [hc, List.append_assoc]
    · intro c hcm
      rcases List.mem_append.mp hcm with h | h
      · simp only [List.mem_map] at h
        rcases h with ⟨a, _, rfl⟩
        rfl
      · exact hn c h
  simp only
  split
  · rename_i w2 heq
    have := hres (.exit 1)
    rw [heq] at this
    exact this
  · rename_i w2 heq
    have := hres (.exit 0)
    rw [heq] at this
    split <;> exact this

/-- C8: the read commands never mutate the store.  For every store, argument list and
world, each of `listImageBigData`, `getImageBigData`, `getImageBigDataSize`,
`getImageBigDataDigest`, `listLayerBigData`, `getLayerBigData`, `image`, `layer` and
`layerParentOwners` leaves the store state as it found it, and every store invocation
it adds to the record is a lookup, never `SetImageBigData` or `SetLayerBigData`,
whether it ends with status 0, with status 1 or in a panic. -/
theorem read_commands_never_mutate (m : Store σ) (args : List String) (w : World σ) :
    ReadOnlyRun w (listImageBigData m args w) ∧
    ReadOnlyRun w (getImageBigData m args w) ∧
    ReadOnlyRun w (getImageBigDataSize m args w) ∧
    ReadOnlyRun w (getImageBigDataDigest m args w) ∧
    ReadOnlyRun w (listLayerBigData m args w) ∧
    ReadOnlyRun w (getLayerBigData m args w) ∧
    ReadOnlyRun w (image m args w) ∧
    ReadOnlyRun w (layer m args w) ∧
    ReadOnlyRun w (layerParentOwners m args w) :=
  ⟨listImageBigData_readOnly m args w, getImageBigData_readOnly m args w,
   getImageBigDataSize_readOnly m args w, getImageBigDataDigest_readOnly m args w,
   listLayerBigData_readOnly m args w, getLayerBigData_readOnly m args w,
   image_readOnly m args w, layer_readOnly m args w, layerParentOwners_readOnly m args w⟩

/-! ## C10 -/

theorem image_no_panic (m : Store σ) (args : List String) (w : World σ) :
    (image m args w).1 ≠ .panic := by
  rw [image_status]
  split <;> simp

theorem layer_no_panic (m : Store σ) (args : List String) (w : World σ) :
    (layer m args w).1 ≠ .panic := by
  rw [layer_status]
  split <;> simp

theorem layerParentOwners_no_panic (m : Store σ) (args : List String) (w : World σ) :
    (layerParentOwners m args w).1 ≠ .panic := by
  unfold layerParentOwners
  simp only
  split
  · simp
  · split <;> simp

theorem listImageBigData_no_panic (m : Store σ) (a : String) (rest : List String) (w : World σ) :
    (listImageBigData m (a :: rest) w).1 ≠ .panic := by
  simp only [listImageBigData, List.getElem?_cons_zero]
  repeat' split
  all_goals simp

theorem listLayerBigData_no_panic (m : Store σ) (a : String) (rest : List String) (w : World σ) :
    (listLayerBigData m (a :: rest) w).1 ≠ .panic := by
  simp only [listLayerBigData, List.getElem?_cons_zero]
  repeat' split
  all_goals simp

theorem getImageBigData_no_panic (m : Store σ) (a b : String) (rest : List String) (w : World σ) :
    (getImageBigData m (a :: b :: rest) w).1 ≠ .panic := by
  simp only [getImageBigData, List.getElem?_cons_zero, List.getElem?_cons_succ]
  repeat' split
  all_goals simp

theorem getImageBigDataSize_no_panic (m : Store σ) (a b : String) (rest : List String)
    (w : World σ) : (getImageBigDataSize m (a :: b :: rest) w).1 ≠ .panic := by
  simp only [getImageBigDataSize, List.getElem?_cons_zero, List.getElem?_cons_succ]
  repeat' split
  all_goals simp

theorem getImageBigDataDigest_no_panic (m : Store σ) (a b : String) (rest : List String)
    (w : World σ) : (getImageBigDataDigest m (a :: b :: rest) w).1 ≠ .panic := by
  simp only [getImageBigDataDigest, List.getElem?_cons_zero, List.getElem?_cons_succ]
  repeat' split
  all_goals simp

theorem setImageBigData_no_panic (m : Store σ) (a b : String) (rest : List String) (w : World σ) :
    (setImageBigData m (a :: b :: rest) w).1 ≠ .panic := by
  simp only [setImageBigData, List.getElem?_cons_zero, List.getElem?_cons_succ]
  repeat' split
  all_goals simp

theorem getLayerBigData_no_panic (m : Store σ) (a b : String) (rest : List String) (w : World σ) :
    (getLayerBigData m (a :: b :: rest) w).1 ≠ .panic := by
  simp only [getLayerBigData, List.getElem?_cons_zero, List.getElem?_cons_succ]
  repeat' split
  all_goals simp

theorem setLayerBigData_no_panic (m : Store σ) (a b : String) (rest : List String) (w : World σ) :
    (setLayerBigData m (a :: b :: rest) w).1 ≠ .panic := by
  simp only [setLayerBigData, List.getElem?_cons_zero, List.getElem?_cons_succ]
  repeat' split
  all_goals simp

theorem exists_cons_of_one_le (args : List String) (h : (1 : Int) ≤ args.length) :
    ∃ a rest, args = a :: rest := by
  cases args with
  | nil => simp at h
  | cons a rest => exact ⟨a, rest, rfl⟩

theorem exists_cons_cons_of_two_le (args : List String) (h : (2 : Int) ≤ args.length) :
    ∃ a b rest, args = a :: b :: rest := by
  cases args with
  | nil => simp at h
  | cons a t =>
    cases t with
    | nil => simp at h
    | cons b rest => exact ⟨a, b, rest, rfl⟩

/-- C10: argument indexing is safe under the registered arity.  For every command that
the two `init` functions register and every argument list with at least `minArgs`
elements, the action does not end in the index-out-of-range panic; `minArgs` is 1 or
2; and a command with `minArgs` 2 (the get and set data commands) declares no
`maxArgs` (the field keeps Go's zero value) and gives on any such argument list the
result it gives on its first two elements alone, as a command with `maxArgs` 1 gives the
result it gives on the first element alone. -/
theorem argument_indexing_safe (m : Store σ) (cmd : Command σ) (hcmd : cmd ∈ commands)
    (args : List String) (w : World σ) (hargs : cmd.minArgs ≤ args.length) :
    (cmd.action m args w).1 ≠ .panic ∧
    (cmd.minArgs = 1 ∨ cmd.minArgs = 2) ∧
    (cmd.maxArgs = 1 → cmd.action m args w = cmd.action m (args.take 1) w) ∧
    (cmd.minArgs = 2 → cmd.maxArgs = 0 ∧ cmd.action m args w = cmd.action m (args.take 2) w) := by
  simp only [commands, init_image, init_layer, List.cons_append, List.nil_append,
    List.mem_cons, List.mem_singleton, List.not_mem_nil, or_false] at hcmd
  rcases hcmd with h | h | h | h | h | h | h | h | h | h | h <;> subst h <;>
    simp only at hargs ⊢
  · exact ⟨image_no_panic m args w, by simp⟩
  · obtain ⟨a, rest, rfl⟩ := exists_cons_of_one_le args hargs
    exact ⟨listImageBigData_no_panic m a rest w, by simp, fun _ => by
      show _ = listImageBigData m [a] w
      simp only [listImageBigData, List.getElem?_cons_zero], by simp⟩
  · obtain ⟨a, b, rest, rfl⟩ := exists_cons_cons_of_two_le args hargs
    exact ⟨getImageBigData_no_panic m a b rest w, by simp, by simp, fun _ => ⟨by simp, by
      show _ = getImageBigData m [a, b] w
      simp only [getImageBigData, List.getElem?_cons_zero, List.getElem?_cons_succ]⟩⟩
  · obtain ⟨a, b, rest, rfl⟩ := exists_cons_cons_of_two_le args hargs
    exact ⟨getImageBigDataSize_no_panic m a b rest w, by simp, by simp, fun _ => ⟨by simp, by
      show _ = getImageBigDataSize m [a, b] w
      simp only [getImageBigDataSize, List.getElem?_cons_zero, List.getElem?_cons_succ]⟩⟩
  · obtain ⟨a, b, rest, rfl⟩ := exists_cons_cons_of_two_le args hargs
    exact ⟨getImageBigDataDigest_no_panic m a b rest w, by simp, by simp, fun _ => ⟨by simp, by
      show _ = getImageBigDataDigest m [a, b] w
      simp only [getImageBigDataDigest, List.getElem?_cons_zero, List.getElem?_cons_succ]⟩⟩
  · obtain ⟨a, b, rest, rfl⟩ := exists_cons_cons_of_two_le args hargs
    exact ⟨setImageBigData_no_panic m a b rest w, by simp, by simp, fun _ => ⟨by simp, by
      show _ = setImageBigData m [a, b] w
      simp only [setImageBigData, List.getElem?_cons_zero, List.getElem?_cons_succ]⟩⟩
  · exact ⟨layer_no_panic m args w, by simp⟩
  · exact ⟨layerParentOwners_no_panic m args w, by simp⟩
  · obtain ⟨a, rest, rfl⟩ := exists_cons_of_one_le args hargs
    exact ⟨listLayerBigData_no_panic m a rest w, by simp, fun _ => by
      show _ = listLayerBigData m [a] w
      simp only [listLayerBigData, List.getElem?_cons_zero], by simp⟩
  · obtain ⟨a, b, rest, rfl⟩ := exists_cons_cons_of_two_le args hargs
    exact ⟨getLayerBigData_no_panic m a b rest w, by simp, by simp, fun _ => ⟨by simp, by
      show _ = getLayerBigData m [a, b] w
      simp only [getLayerBigData, List.getElem?_cons_zero, List.getElem?_cons_succ]⟩⟩
  · obtain ⟨a, b, rest, rfl⟩ := exists_cons_cons_of_two_le args hargs
    exact ⟨setLayerBigData_no_panic m a b rest w, by simp, by simp, fun _ => ⟨by simp, by
      show _ = setLayerBigData m [a, b] w
      simp only [setLayerBigData, List.getElem?_cons_zero, List.getElem?_cons_succ]⟩⟩

/-- The store with two layers and the command `set-layer-data`: three arguments are read
without a panic and the third changes nothing. -/
theorem argument_indexing_safe_witness :
    (2 : Int) ≤ (["a", "data", "extra"] : List String).length ∧
    (setLayerBigData failingOwnersStore ["a", "data", "extra"] (startWorld ())).1 ≠ .panic ∧
    setLayerBigData failingOwnersStore ["a", "data", "extra"] (startWorld ())
      = setLayerBigData failingOwnersStore ["a", "data"] (startWorld ()) := by
  have h := argument_indexing_safe failingOwnersStore
    { names := ["set-layer-data", "setlayerdata"], action := setLayerBigData,
      minArgs := 2, maxArgs := 0 }
    (by simp [commands, init_image, init_layer])
    ["a", "data", "extra"] (startWorld ()) (by decide)
  exact ⟨by decide, h.1, (h.2.2.2 rfl).2⟩

/-! ## C7 -/

theorem ownersReport_eq (m : Store σ) (w : World σ) (layer : Layer) (uids gids : List Int)
    (h : m.LayerParentOwners w.store layer.ID = .ok (uids, gids)) :
    ownersReport w layer uids gids
    = { w with stdout := w.stdout ++ ownersLines m w.store w.jsonOutput layer } := by
  unfold ownersReport ownersLines
  rw [h]
  by_cases hj : w.jsonOutput = true
  · simp [World.encode, hj]
  · by_cases hu : uids.length > 0 <;> by_cases hg : gids.length > 0 <;>
      simp [World.printf, hu, hg, hj]

theorem ownersLoop_stdout (m : Store σ) (matched : List Layer) (w : World σ) :
    (ownersLoop m matched w).2.stdout = w.stdout ++
      (matched.takeWhile (ownersOk m w.store)).flatMap (ownersLines m w.store w.jsonOutput) ∧
    (ownersLoop m matched w).1 = !(matched.all (ownersOk m w.store)) := by
  induction matched generalizing w with
  | nil => simp [ownersLoop]
  | cons l rest ih =>
    unfold ownersLoop
    simp only [call_store]
    cases h : m.LayerParentOwners w.store l.ID with
    | error e =>
      have hok : ownersOk m w.store l = false := by simp [ownersOk, h]
      simp [List.takeWhile_cons, hok, World.eprintf, World.call]
    | ok r =>
      obtain ⟨uids, gids⟩ := r
      have hok : ownersOk m w.store l = true := by simp [ownersOk, h]
      have hrep := ownersReport_eq m (w.call (StoreCall.LayerParentOwners l.ID)) l uids gids h
      simp only [call_store, call_jsonOutput] at hrep
      simp only [hrep, ih, List.takeWhile_cons, hok, List.all_cons]
      simp [World.call]

/-- C7, the claim as stated, fails: in the store where the owner computation fails for
layer `a` and succeeds for layer `b`, `layerParentOwners` on the arguments `a`, `b`
resolves both, stops at the failure for `a` and writes nothing about `b`. -/
theorem layerParentOwners_stops_at_first_failure :
    ¬ ReportsEverySuccess failingOwnersStore ["a", "b"] (startWorld ()) := by
  intro h
  have hb := h "b" (by simp) (bareLayer "b") rfl rfl (Output.text "ID: b\n") (by decide)
  have hout : (layerParentOwners failingOwnersStore ["a", "b"] (startWorld ())).2.stdout = [] := by
    decide
  rw [hout] at hb
  cases hb

/-- C7 as amended: `layerParentOwners` never aborts on an argument that fails to
resolve, and it reports, in order, every resolved layer up to the first one whose owner
computation fails: the standard output grows by exactly the reports of the longest
prefix of the resolved layers whose computations succeed.  When no computation fails,
every resolving argument is reported and the status is 0 exactly when every argument
resolves; when one fails, the command ends there with status 1. -/
theorem layerParentOwners_reports_until_failure (m : Store σ) (args : List String)
    (w : World σ) :
    (layerParentOwners m args w).2.stdout = w.stdout ++
      (((matchLayers m args w).1.takeWhile (ownersOk m w.store)).flatMap
        (ownersLines m w.store w.jsonOutput)) ∧
    (matchLayers m args w).1 = args.filterMap (fun a => (m.Layer w.store a).toOption) ∧
    ((∀ l ∈ (matchLayers m args w).1, ownersOk m w.store l = true) →
      ReportsEverySuccess m args w ∧
      ((layerParentOwners m args w).1 = .exit 0 ↔
        ∀ arg ∈ args, ∃ r, m.Layer w.store arg = .ok r) ∧
      ((layerParentOwners m args w).1 = .exit 1 ↔
        ¬ ∀ arg ∈ args, ∃ r, m.Layer w.store arg = .ok r)) ∧
    ((∃ l ∈ (matchLayers m args w).1, ownersOk m w.store l = false) →
      (layerParentOwners m args w).1 = .exit 1) := by
  have hloop := ownersLoop_stdout m (matchLayers m args w).1 (matchLayers m args w).2
  have hst : (matchLayers m args w).2.store = w.store := by rw [matchLayers_eq]
  have hjs : (matchLayers m args w).2.jsonOutput = w.jsonOutput := by rw [matchLayers_eq]
  have hso : (matchLayers m args w).2.stdout = w.stdout := by rw [matchLayers_eq]
  rw [hst, hjs, hso] at hloop
  have hout : (layerParentOwners m args w).2.stdout = w.stdout ++
      (((matchLayers m args w).1.takeWhile (ownersOk m w.store)).flatMap
        (ownersLines m w.store w.jsonOutput)) := by
    rw [← hloop.1]
    unfold layerParentOwners
    simp only
    split
    · rename_i heq; rw [heq]
    · rename_i heq; rw [heq]; split <;> rfl
  have hstatus : (layerParentOwners m args w).1 =
      if (ownersLoop m (matchLayers m args w).1 (matchLayers m args w).2).1 = true then .exit 1
      else if (matchLayers m args w).1.length = args.length then .exit 0 else .exit 1 := by
    unfold layerParentOwners
    simp only
    split
    · rename_i heq; rw [heq]; simp
    · rename_i heq; rw [heq]
      by_cases hl : (matchLayers m args w).1.length = args.length <;> simp [hl]
  refine ⟨hout, by rw [matchLayers_eq], ?_, ?_⟩
  · intro hall
    have hfalse : (ownersLoop m (matchLayers m args w).1 (matchLayers m args w).2).1 = false := by
      rw [hloop.2]
      simp only [Bool.not_eq_false', List.all_eq_true]
      exact hall
    have htake : (matchLayers m args w).1.takeWhile (ownersOk m w.store)
        = (matchLayers m args w).1 := by
      rw [List.takeWhile_eq_self_iff]
      exact hall
    refine ⟨?_, ?_, ?_⟩
    · intro arg harg l hl _ o ho
      rw [hout, htake]
      refine List.mem_append_right _ (List.mem_flatMap.mpr ⟨l, ?_, ho⟩)
      rw [matchLayers_eq]
      exact List.mem_filterMap.mpr ⟨arg, harg, by simp [hl, Except.toOption]⟩
    · rw [hstatus, hfalse, ← matchLayers_length_iff]
      by_cases hl : (matchLayers m args w).1.length = args.length <;> simp [hl]
    · rw [hstatus, hfalse, ← matchLayers_length_iff]
      by_cases hl : (matchLayers m args w).1.length = args.length <;> simp [hl]
  · rintro ⟨l, hl, hbad⟩
    have htrue : (ownersLoop m (matchLayers m args w).1 (matchLayers m args w).2).1 = true := by
      rw [hloop.2]
      simp only [Bool.not_eq_true', List.all_eq_false]
      exact ⟨l, hl, by simp [hbad]⟩
    rw [hstatus, htrue]
    simp

/-! ## C9 -/

theorem sha256_sum_length (msg : Bytes) : (sha256.sum msg).length = 32 := by
  simp [sha256.sum, sha256.be32]

theorem hexDigit_spec : ∀ n : Fin 16,
    digest.isLowerHex (digest.hexDigit n.val) = true ∧ (digest.hexDigit n.val).utf8Size = 1 := by
  decide

theorem hexDigit_lower (n : Nat) (h : n < 16) :
    digest.isLowerHex (digest.hexDigit n) = true :=
  (hexDigit_spec ⟨n, h⟩).1

theorem hexDigit_utf8Size (n : Nat) (h : n < 16) : (digest.hexDigit n).utf8Size = 1 :=
  (hexDigit_spec ⟨n, h⟩).2

theorem hexChars_all_lower (b : Bytes) : (digest.hexChars b).all digest.isLowerHex = true := by
  induction b with
  | nil => rfl
  | cons x rest ih =>
    have h1 : x.val / 16 < 16 := by have := x.isLt; omega
    have h2 : x.val % 16 < 16 := Nat.mod_lt _ (by decide)
    simp only [digest.hexChars, List.flatMap_cons, List.cons_append, List.nil_append,
      List.all_cons, Bool.and_eq_true] at ih ⊢
    exact ⟨hexDigit_lower _ h1, hexDigit_lower _ h2, ih⟩

theorem hexChars_length (b : Bytes) : (digest.hexChars b).length = 2 * b.length := by
  induction b with
  | nil => rfl
  | cons x rest ih =>
    simp only [digest.hexChars, List.flatMap_cons, List.cons_append, List.nil_append,
      List.length_cons] at ih ⊢
    omega

theorem hexChars_byteLen (b : Bytes) : digest.byteLen (digest.hexChars b) = 2 * b.length := by
  induction b with
  | nil => rfl
  | cons x rest ih =>
    have h1 : x.val / 16 < 16 := by have := x.isLt; omega
    have h2 : x.val % 16 < 16 := Nat.mod_lt _ (by decide)
    simp only [digest.byteLen, digest.hexChars, List.flatMap_cons, List.cons_append,
      List.nil_append, List.map_cons, List.sum_cons, List.length_cons,
      hexDigit_utf8Size _ h1, hexDigit_utf8Size _ h2] at ih ⊢
    omega

theorem validate_fromBytes (p : Bytes) : digest.Validate (digest.Canonical.FromBytes p) = none := by
  have hlen := hexChars_length (sha256.sum p)
  have hbl := hexChars_byteLen (sha256.sum p)
  have hall := hexChars_all_lower (sha256.sum p)
  rw [sha256_sum_length] at hlen hbl
  have hs : (digest.Canonical.FromBytes p).toList
      = 's' :: 'h' :: 'a' :: '2' :: '5' :: '6' :: ':' :: digest.hexChars (sha256.sum p) := rfl
  unfold digest.Validate
  simp only [hs]
  have htw : List.takeWhile (fun c => c != ':')
      ('s' :: 'h' :: 'a' :: '2' :: '5' :: '6' :: ':' :: digest.hexChars (sha256.sum p))
      = ['s', 'h', 'a', '2', '5', '6'] := by
    simp [List.takeWhile]
  rw [htw]
  have hsize : digest.algorithmSize ['s', 'h', 'a', '2', '5', '6'] = some 32 := by decide
  simp [hsize, hlen, hbl, hall]

/-! ## The store of the specification: set, then get -/

namespace SpecStore

theorem lookup_insert {κ ν : Type} [DecidableEq κ] (k : κ) (v : ν) (l : List (κ × ν)) :
    lookup k (insert k v l) = some v := by
  simp [insert, lookup]

theorem addBigDataName_ID (ownerID name : String) (i : Image) :
    (addBigDataName ownerID name i).ID = i.ID := by
  unfold addBigDataName
  split <;> rfl

theorem addBigDataName_Names (ownerID name : String) (i : Image) :
    (addBigDataName ownerID name i).Names = i.Names := by
  unfold addBigDataName
  split <;> rfl

theorem resolveImage_map (s : State) (ownerID name : String) (data : List ((String × String) × BigDataEntry))
    (x : String) :
    ResolveImage { s with images := s.images.map (addBigDataName ownerID name), imageData := data } x
    = (ResolveImage s x).map (addBigDataName ownerID name) := by
  unfold ResolveImage
  simp only [List.find?_map]
  have h1 : ((fun i : Image => decide (i.ID = x)) ∘ addBigDataName ownerID name)
      = (fun i : Image => decide (i.ID = x)) := by
    funext i
    simp [addBigDataName_ID]
  have h2 : ((fun i : Image => decide (x ∈ i.Names)) ∘ addBigDataName ownerID name)
      = (fun i : Image => decide (x ∈ i.Names)) := by
    funext i
    simp [addBigDataName_Names]
  rw [h1, h2]
  cases List.find? (fun i : Image => decide (i.ID = x)) s.images with
  | some i => rfl
  | none =>
    cases List.find? (fun i : Image => decide (x ∈ i.Names)) s.images with
    | some i => rfl
    | none => rfl

theorem resolveImage_mem (s : State) (x : String) (i : Image) (h : ResolveImage s x = .ok i) :
    i ∈ s.images := by
  unfold ResolveImage at h
  split at h
  · rename_i j hj
    cases h
    exact List.mem_of_find?_eq_some hj
  · split at h
    · rename_i j hj
      cases h
      exact List.mem_of_find?_eq_some hj
    · cases h

theorem resolveImage_by_ID (s : State) (i : Image) (h : i ∈ s.images) :
    ∃ j, ResolveImage s i.ID = .ok j ∧ j.ID = i.ID := by
  unfold ResolveImage
  cases hf : s.images.find? (fun j => decide (j.ID = i.ID)) with
  | some j =>
    refine ⟨j, rfl, ?_⟩
    have := List.find?_some hf
    simpa using this
  | none =>
    have := List.find?_eq_none.mp hf i h
    simp at this

/-- After a successful `Set` under the ID of the record an argument resolves to, the
argument still resolves, to a record of the same ID, and that ID and the name lead to
the bytes that were set, their length, and the digest that `digestFn` gives. -/
theorem set_then_get (s s2 : State) (arg name : String) (image : Image) (bytes : Bytes)
    (digestFn : Bytes → Except GoError Digest)
    (hres : ResolveImage s arg = .ok image)
    (hset : SetImageBigData s image.ID name bytes digestFn = (s2, none)) :
    ∃ image2 d, ResolveImage s2 arg = .ok image2 ∧ digestFn bytes = .ok d ∧
      ImageBigData s2 image2.ID name = .ok bytes ∧
      ImageBigDataSize s2 image2.ID name = .ok (bytes.length : Int) ∧
      lookup (image.ID, name) s2.imageData = some ⟨bytes, d⟩ ∧
      (digest.Validate d = none → ImageBigDataDigest s2 image2.ID name = .ok d) := by
  obtain ⟨owner, howner, hoid⟩ := resolveImage_by_ID s image (resolveImage_mem s arg image hres)
  unfold SetImageBigData at hset
  rw [howner] at hset
  simp only at hset
  split at hset
  · simp at hset
  · cases hd : digestFn bytes with
    | error e => rw [hd] at hset; simp at hset
    | ok d =>
      rw [hd] at hset
      simp only [Prod.mk.injEq, and_true] at hset
      subst hset
      have hres2 := resolveImage_map s owner.ID name
        (insert (owner.ID, name) ⟨bytes, d⟩ s.imageData) arg
      rw [hres] at hres2
      have hmem2 := resolveImage_mem _ _ _ hres2
      obtain ⟨owner2, howner2, hoid2⟩ := resolveImage_by_ID _ _ hmem2
      have hid : owner2.ID = owner.ID := by
        rw [hoid2, addBigDataName_ID, hoid]
      refine ⟨addBigDataName owner.ID name image, d, hres2, rfl, ?_, ?_, ?_, ?_⟩
      · unfold ImageBigData
        rw [howner2]
        simp only [hid, lookup_insert]
      · unfold ImageBigDataSize
        rw [howner2]
        simp only [hid, lookup_insert]
      · rw [← hoid]
        exact lookup_insert _ _ _
      · intro hv
        unfold ImageBigDataDigest
        rw [howner2]
        simp only [hid, lookup_insert, hv]

end SpecStore

/-! ## C5 -/

theorem setImageBigData_exit_zero (m : Store σ) (arg0 arg1 : String) (rest : List String)
    (w : World σ) (h : (setImageBigData m (arg0 :: arg1 :: rest) w).1 = .exit 0) :
    ∃ image input b, m.Image w.store arg0 = .ok image ∧
      openInput w w.paramImageDataFile = .ok input ∧ input.readAll = .ok b ∧
      (m.SetImageBigData w.store image.ID arg1 b wrongManifestDigest).2 = none ∧
      (setImageBigData m (arg0 :: arg1 :: rest) w).2.store
        = (m.SetImageBigData w.store image.ID arg1 b wrongManifestDigest).1 := by
  simp only [setImageBigData, List.getElem?_cons_zero, List.getElem?_cons_succ,
    call_store, call_paramImageDataFile, openInput_call] at h ⊢
  cases h1 : m.Image w.store arg0 with
  | error e => simp [h1] at h
  | ok image =>
    simp only [h1] at h ⊢
    cases h2 : openInput w w.paramImageDataFile with
    | error e => simp [h2] at h
    | ok input =>
      simp only [h2] at h ⊢
      cases h3 : input.readAll with
      | error e => simp [h3] at h
      | ok b =>
        simp only [h3] at h ⊢
        cases h4 : (m.SetImageBigData w.store image.ID arg1 b wrongManifestDigest).2 with
        | some e => simp [h4] at h
        | none => exact ⟨image, input, b, rfl, rfl, h3, h4, rfl⟩

theorem openOutput_stdout (w : World σ) : openOutput w "" = .ok (OutputFile.stdout, w) := by
  simp [openOutput]

theorem openOutput_file (w : World σ) (param : String) (hp : param ≠ "")
    (hc : (w.files param).createErr = none) :
    openOutput w param = .ok (OutputFile.file param,
      { w with files := Function.update w.files param { (w.files param) with data := [] } }) := by
  simp [openOutput, World.osCreate, hp, hc]

/-- C5: round trip through the commands, over the store of the specification.  Let
`setImageBigData` on an owner argument and a name end with status 0 after reading
`bytes` from its input.  Then in any world that holds the store it left,
`getImageBigData` on the same owner and name ends with status 0 and writes exactly
`bytes`: one write of `bytes` on the standard output, or, when an output file is named
and can be created, exactly `bytes` as the content of that file; and
`getImageBigDataSize` ends with status 0 and prints the length of `bytes`. -/
theorem set_get_round_trip (imageSize : SpecStore.State → String → Except GoError Int)
    (owner name : String) (rest rest2 rest3 : List String) (bytes : Bytes)
    (w w2 : World SpecStore.State)
    (hin : openInput w w.paramImageDataFile = .ok { data := bytes, err := none })
    (hset : (setImageBigData (SpecStore.store imageSize) (owner :: name :: rest) w).1 = .exit 0)
    (hst : w2.store
      = (setImageBigData (SpecStore.store imageSize) (owner :: name :: rest) w).2.store) :
    (w2.paramImageDataFile = "" →
      (getImageBigData (SpecStore.store imageSize) (owner :: name :: rest2) w2).1 = .exit 0 ∧
      (getImageBigData (SpecStore.store imageSize) (owner :: name :: rest2) w2).2.stdout
        = w2.stdout ++ [Output.bytes bytes]) ∧
    (w2.paramImageDataFile ≠ "" → (w2.files w2.paramImageDataFile).createErr = none →
      (getImageBigData (SpecStore.store imageSize) (owner :: name :: rest2) w2).1 = .exit 0 ∧
      ((getImageBigData (SpecStore.store imageSize) (owner :: name :: rest2) w2).2.files
        w2.paramImageDataFile).data = bytes ∧
      (getImageBigData (SpecStore.store imageSize) (owner :: name :: rest2) w2).2.stdout
        = w2.stdout) ∧
    ((getImageBigDataSize (SpecStore.store imageSize) (owner :: name :: rest3) w2).1 = .exit 0 ∧
      (getImageBigDataSize (SpecStore.store imageSize) (owner :: name :: rest3) w2).2.stdout
        = w2.stdout ++ [Output.text (toString (bytes.length : Int) ++ "\n")]) := by
  obtain ⟨image, input, b, h1, h2, h3, h4, h5⟩ :=
    setImageBigData_exit_zero (SpecStore.store imageSize) owner name rest w hset
  rw [hin] at h2
  cases h2
  have hb : b = bytes := by
    simp [Reader.readAll] at h3
    exact h3.symm
  subst hb
  have hset2 : SpecStore.SetImageBigData w.store image.ID name b wrongManifestDigest
      = (w2.store, none) := by
    rw [hst, h5]
    exact Prod.ext rfl h4
  obtain ⟨image2, d, hr2, _, hget, hsize, _, _⟩ :=
    SpecStore.set_then_get w.store w2.store owner name image b wrongManifestDigest h1 hset2
  have hr2c : (SpecStore.store imageSize).Image w2.store owner = .ok image2 := hr2
  have hgetc : (SpecStore.store imageSize).ImageBigData w2.store image2.ID name = .ok b := hget
  have hsizec : (SpecStore.store imageSize).ImageBigDataSize w2.store image2.ID name
      = .ok (b.length : Int) := hsize
  refine ⟨?_, ?_, ?_⟩
  · intro hp
    simp only [getImageBigData, List.getElem?_cons_zero, List.getElem?_cons_succ,
      call_store, call_paramImageDataFile, hr2c, hp, openOutput_stdout, hgetc]
    simp [World.write, World.call]
  · intro hp hc
    have hoc := openOutput_file (w2.call (StoreCall.Image owner)) w2.paramImageDataFile hp hc
    simp only [getImageBigData, List.getElem?_cons_zero, List.getElem?_cons_succ,
      call_store, call_paramImageDataFile, hr2c, hoc, hgetc]
    simp [World.write, World.call]
  · simp only [getImageBigDataSize, List.getElem?_cons_zero, List.getElem?_cons_succ,
      call_store, hr2c, hsizec]
    simp [World.printf, World.call]

/-- The bytes 1, 2, 3 set under `busybox`, `manifest` come back as they are, and the size
printed is 3. -/
theorem set_get_round_trip_witness :
    (getImageBigData (SpecStore.store SpecStore.noSize) ["busybox", "manifest"]
      (setImageBigData (SpecStore.store SpecStore.noSize) ["busybox", "manifest"]
        (startWorld SpecStore.chainState)).2).2.stdout = [Output.bytes [1, 2, 3]] ∧
    (getImageBigDataSize (SpecStore.store SpecStore.noSize) ["busybox", "manifest"]
      (setImageBigData (SpecStore.store SpecStore.noSize) ["busybox", "manifest"]
        (startWorld SpecStore.chainState)).2).2.stdout = [Output.text "3\n"] := by
  have h := set_get_round_trip SpecStore.noSize "busybox" "manifest" [] [] [] [1, 2, 3]
    (startWorld SpecStore.chainState)
    (setImageBigData (SpecStore.store SpecStore.noSize) ["busybox", "manifest"]
      (startWorld SpecStore.chainState)).2
    rfl (by decide) rfl
  exact ⟨(h.1 rfl).2, h.2.2.2⟩

/-! ## C9, concluded -/

set_option maxRecDepth 10000 in
theorem fromBytes_empty :
    digest.Canonical.FromBytes []
      = "sha256:e3b0c44298fc1c149afbf4c8996fb92427ae41e4649b934ca495991b7852b855" := by
  decide

/-- C9: despite its name, `wrongManifestDigest` is the canonical content digest: for
every byte sequence `b` it returns `digest.Canonical.FromBytes(b)` and no error; that
digest passes the syntactic validation `Validate`; and over the store of the
specification, once `setImageBigData` has read `b` and ended with status 0, the owner
and name lead to the bytes `b` and to the digest `digest.Canonical.FromBytes(b)`. -/
theorem wrongManifestDigest_is_canonical (b : Bytes) :
    wrongManifestDigest b = .ok (digest.Canonical.FromBytes b) ∧
    digest.Validate (digest.Canonical.FromBytes b) = none ∧
    (∀ (imageSize : SpecStore.State → String → Except GoError Int) (owner name : String)
        (rest : List String) (w : World SpecStore.State),
      openInput w w.paramImageDataFile = .ok { data := b, err := none } →
      (setImageBigData (SpecStore.store imageSize) (owner :: name :: rest) w).1 = .exit 0 →
      ∃ image2,
        SpecStore.ResolveImage
          (setImageBigData (SpecStore.store imageSize) (owner :: name :: rest) w).2.store owner
          = .ok image2 ∧
        SpecStore.ImageBigData
          (setImageBigData (SpecStore.store imageSize) (owner :: name :: rest) w).2.store
          image2.ID name = .ok b ∧
        SpecStore.ImageBigDataDigest
          (setImageBigData (SpecStore.store imageSize) (owner :: name :: rest) w).2.store
          image2.ID name = .ok (digest.Canonical.FromBytes b)) := by
  refine ⟨rfl, validate_fromBytes b, ?_⟩
  intro imageSize owner name rest w hin hset
  obtain ⟨image, input, b2, h1, h2, h3, h4, h5⟩ :=
    setImageBigData_exit_zero (SpecStore.store imageSize) owner name rest w hset
  rw [hin] at h2
  cases h2
  have hb : b2 = b := by
    simp [Reader.readAll] at h3
    exact h3.symm
  subst hb
  have hset2 : SpecStore.SetImageBigData w.store image.ID name b2 wrongManifestDigest
      = ((setImageBigData (SpecStore.store imageSize) (owner :: name :: rest) w).2.store, none) := by
    rw [h5]
    exact Prod.ext rfl h4
  obtain ⟨image2, d, hr2, hd, hget, _, _, hdig⟩ :=
    SpecStore.set_then_get w.store _ owner name image b2 wrongManifestDigest h1 hset2
  have hdeq : d = digest.Canonical.FromBytes b2 := by
    simp only [wrongManifestDigest, Except.ok.injEq] at hd
    exact hd.symm
  subst hdeq
  exact ⟨image2, hr2, hget, hdig (validate_fromBytes b2)⟩

/-! ## C6 -/

namespace SpecStore

theorem ancestors_succ (s : State) (n : Nat) (id : String) :
    ancestors s (n + 1) id =
      match first s id with
      | none => []
      | some p => p :: ancestors s n p.Parent := by
  unfold first
  rw [ancestors]
  by_cases h : id = ""
  · simp [h]
  · simp only [h, if_false]

theorem iterate_next_none (s : State) (k : Nat) : (next s)^[k] none = none := by
  induction k with
  | zero => rfl
  | succ k ih => rw [Function.iterate_succ_apply]; exact ih

theorem mem_ancestors_iff (s : State) (n : Nat) (id : String) (a : Layer) :
    a ∈ ancestors s n id ↔ ∃ k, k < n ∧ (next s)^[k] (first s id) = some a := by
  induction n generalizing id with
  | zero => simp [ancestors]
  | succ n ih =>
    rw [ancestors_succ]
    cases hf : first s id with
    | none => simp [iterate_next_none]
    | some p =>
      simp only [List.mem_cons, ih]
      constructor
      · rintro (rfl | ⟨k, hk, hka⟩)
        · exact ⟨0, Nat.succ_pos _, rfl⟩
        · exact ⟨k + 1, Nat.succ_lt_succ hk, by rw [Function.iterate_succ_apply]; exact hka⟩
      · rintro ⟨k, hk, hka⟩
        cases k with
        | zero =>
          simp only [Function.iterate_zero, id_eq, Option.some.injEq] at hka
          exact .inl hka.symm
        | succ k =>
          rw [Function.iterate_succ_apply] at hka
          exact .inr ⟨k, Nat.lt_of_succ_lt_succ hk, hka⟩

theorem first_eq_some (s : State) (id : String) (p : Layer) :
    first s id = some p ↔ id ≠ "" ∧ lookupLayer s id = some p := by
  unfold first
  by_cases h : id = "" <;> simp [h]

theorem reaches_iff (s : State) (id : String) (a : Layer) :
    Reaches s id a ↔ ∃ k, (next s)^[k] (first s id) = some a := by
  constructor
  · intro h
    induction h with
    | here hne hl => exact ⟨0, (first_eq_some s _ _).mpr ⟨hne, hl⟩⟩
    | up hne hl _ ih =>
      obtain ⟨k, hk⟩ := ih
      refine ⟨k + 1, ?_⟩
      rw [Function.iterate_succ_apply, (first_eq_some s _ _).mpr ⟨hne, hl⟩]
      exact hk
  · rintro ⟨k, hk⟩
    induction k generalizing id with
    | zero =>
      obtain ⟨hne, hl⟩ := (first_eq_some s _ _).mp hk
      exact Reaches.here hne hl
    | succ k ih =>
      rw [Function.iterate_succ_apply] at hk
      cases hf : first s id with
      | none => rw [hf] at hk; simp [next, iterate_next_none] at hk
      | some p =>
        rw [hf] at hk
        obtain ⟨hne, hl⟩ := (first_eq_some s _ _).mp hf
        exact Reaches.up hne hl (ih p.Parent hk)

theorem first_mem (s : State) (id : String) (p : Layer) (h : first s id = some p) :
    p ∈ s.layers := by
  obtain ⟨_, hl⟩ := (first_eq_some s _ _).mp h
  exact List.mem_of_find?_eq_some hl

theorem iterate_next_mem (s : State) (k : Nat) (id : String) (a : Layer)
    (h : (next s)^[k] (first s id) = some a) : a ∈ s.layers := by
  induction k generalizing id with
  | zero => exact first_mem s id a h
  | succ k ih =>
    rw [Function.iterate_succ_apply] at h
    cases hf : first s id with
    | none => rw [hf] at h; simp [next, iterate_next_none] at h
    | some p => rw [hf] at h; exact ih p.Parent h

theorem iterate_next_some_of_le (s : State) (x : Option Layer) (j k : Nat) (a : Layer)
    (hjk : j ≤ k) (h : (next s)^[k] x = some a) : ∃ b, (next s)^[j] x = some b := by
  cases hj : (next s)^[j] x with
  | some b => exact ⟨b, rfl⟩
  | none =>
    have hk : (next s)^[k] x = (next s)^[k - j] ((next s)^[j] x) := by
      rw [← Function.iterate_add_apply]
      congr 1
      omega
    rw [hk, hj, iterate_next_none] at h
    cases h

/-- The depth bound suffices: a layer that the walk meets at all is met within as many
steps as there are layer records. -/
theorem met_within_bound (s : State) (id : String) (a : Layer) (k : Nat)
    (h : (next s)^[k] (first s id) = some a) :
    ∃ k2, k2 < s.layers.length ∧ (next s)^[k2] (first s id) = some a := by
  induction k using Nat.strong_induction_on with
  | _ k ih =>
    by_cases hk : k < s.layers.length
    · exact ⟨k, hk, h⟩
    · have hk2 : s.layers.length ≤ k := Nat.le_of_not_lt hk
      let seq : Nat → Option Layer := fun i => (next s)^[i] (first s id)
      have hsub : (List.range (s.layers.length + 1)).map seq ⊆ s.layers.map some := by
        intro o ho
        obtain ⟨i, hi, rfl⟩ := List.mem_map.mp ho
        have hi2 : i ≤ k := by
          have := List.mem_range.mp hi
          omega
        obtain ⟨b, hb⟩ := iterate_next_some_of_le s (first s id) i k a hi2 h
        exact List.mem_map.mpr ⟨b, iterate_next_mem s i id b hb, hb.symm⟩
      have hnd : ¬ ((List.range (s.layers.length + 1)).map seq).Nodup := by
        intro hn
        have := (hn.subperm hsub).length_le
        simp at this
      have hinj : ¬ ∀ x ∈ List.range (s.layers.length + 1),
          ∀ y ∈ List.range (s.layers.length + 1), seq x = seq y → x = y :=
        fun hall => hnd (List.Nodup.map_on hall (List.nodup_range _))
      push_neg at hinj
      obtain ⟨x, hx, y, hy, hxy, hne⟩ := hinj
      have key : ∀ i j : Nat, i < j → j ≤ s.layers.length → seq i = seq j →
          ∃ k2, k2 < s.layers.length ∧ (next s)^[k2] (first s id) = some a := by
        intro i j hij hj heq
        have hshift : (next s)^[i + (k - j)] (first s id) = some a := by
          have e1 : (next s)^[i + (k - j)] (first s id)
              = (next s)^[k - j] ((next s)^[i] (first s id)) := by
            rw [← Function.iterate_add_apply]
            congr 1
            omega
          have e2 : (next s)^[k] (first s id)
              = (next s)^[k - j] ((next s)^[j] (first s id)) := by
            rw [← Function.iterate_add_apply]
            congr 1
            omega
          rw [e1]
          rw [e2] at h
          have heq2 : (next s)^[i] (first s id) = (next s)^[j] (first s id) := heq
          rw [heq2]
          exact h
        exact ih (i + (k - j)) (by omega) hshift
      have hx2 := List.mem_range.mp hx
      have hy2 := List.mem_range.mp hy
      rcases Nat.lt_or_gt_of_ne hne with hlt | hgt
      · exact key x y hlt (by omega) hxy
      · exact key y x hgt (by omega) hxy.symm

theorem mem_ancestors_bound_iff (s : State) (id : String) (a : Layer) :
    a ∈ ancestors s s.layers.length id ↔ Reaches s id a := by
  rw [mem_ancestors_iff, reaches_iff]
  constructor
  · rintro ⟨k, _, hk⟩
    exact ⟨k, hk⟩
  · rintro ⟨k, hk⟩
    exact met_within_bound s id a k hk

end SpecStore

namespace SpecStore

theorem mem_declared (map : List IDMap) (c : Int) : c ∈ declared map ↔ InRange map c := by
  unfold declared InRange
  simp only [List.mem_flatMap, List.mem_map, List.mem_range]
  constructor
  · rintro ⟨e, he, i, hi, rfl⟩
    exact ⟨e, he, by omega, by omega⟩
  · rintro ⟨e, he, h1, h2⟩
    exact ⟨e, he, (c - e.ContainerID).toNat, by omega, by omega⟩

theorem covers_iff (map : List IDMap) (c : Int) : covers map c = true ↔ InRange map c := by
  unfold covers InRange
  simp [List.any_eq_true]

theorem foldl_collect (own : List IDMap) (cs : List Int) (acc : List Int) (hacc : acc.Nodup) :
    (cs.foldl (fun result c =>
        if covers own c || decide (c ∈ result) then result else result ++ [c]) acc).Nodup ∧
    ∀ c, c ∈ cs.foldl (fun result c =>
        if covers own c || decide (c ∈ result) then result else result ++ [c]) acc ↔
      c ∈ acc ∨ (c ∈ cs ∧ covers own c = false) := by
  induction cs generalizing acc with
  | nil => simp [hacc]
  | cons x rest ih =>
    simp only [List.foldl_cons]
    by_cases hx : (covers own x || decide (x ∈ acc)) = true
    · simp only [hx, if_true]
      obtain ⟨hn, hm⟩ := ih acc hacc
      refine ⟨hn, fun c => ?_⟩
      rw [hm c]
      simp only [List.mem_cons]
      constructor
      · rintro (h | ⟨h1, h2⟩)
        · exact .inl h
        · exact .inr ⟨.inr h1, h2⟩
      · rintro (h | ⟨h1 | h1, h2⟩)
        · exact .inl h
        · subst h1
          simp only [h2, Bool.false_or, decide_eq_true_eq] at hx
          exact .inl hx
        · exact .inr ⟨h1, h2⟩
    · simp only [hx, if_false, Bool.false_eq_true]
      simp only [Bool.or_eq_true, decide_eq_true_eq, not_or, Bool.not_eq_true] at hx
      have hacc2 : (acc ++ [x]).Nodup := by
        rw [List.nodup_append]
        refine ⟨hacc, List.nodup_singleton x, ?_⟩
        intro a ha hb
        rw [List.mem_singleton] at hb
        subst hb
        exact hx.2 ha
      obtain ⟨hn, hm⟩ := ih (acc ++ [x]) hacc2
      refine ⟨hn, fun c => ?_⟩
      rw [hm c]
      simp only [List.mem_append, List.mem_singleton, List.mem_cons, List.not_mem_nil, or_false]
      constructor
      · rintro ((h | h) | ⟨h1, h2⟩)
        · exact .inl h
        · subst h
          exact .inr ⟨.inl rfl, hx.1⟩
        · exact .inr ⟨.inr h1, h2⟩
      · rintro (h | ⟨h1 | h1, h2⟩)
        · exact .inl (.inl h)
        · exact .inl (.inr h1)
        · exact .inr ⟨h1, h2⟩

theorem unmapped_spec (own : List IDMap) (ancestorMaps : List (List IDMap)) :
    (unmapped own ancestorMaps).Nodup ∧
    ∀ c, c ∈ unmapped own ancestorMaps ↔
      (∃ map ∈ ancestorMaps, InRange map c) ∧ ¬ InRange own c := by
  obtain ⟨hn, hm⟩ := foldl_collect own (ancestorMaps.flatMap declared) [] List.nodup_nil
  refine ⟨hn, fun c => ?_⟩
  unfold unmapped
  rw [hm c]
  simp only [List.not_mem_nil, false_or, List.mem_flatMap, mem_declared]
  rw [← covers_iff own c]
  simp

end SpecStore

/-- C6: over the store of the specification, for a layer ID that resolves to the layer
`l`, `ParentOwners` returns two duplicate-free lists: its UIDs are exactly the IDs `c`
that lie in `[ContainerID, ContainerID+Size)` of some `UIDMap` entry of some proper
ancestor of `l` and in no such range of the `UIDMap` of `l` itself, and its GIDs the
same over the `GIDMap`s; both are empty when `l` has no parent; and for the chain
`root{0,0,3} -> A{0,10,3} -> B` with no mapping on `B`, the UIDs of `B` are 0, 1, 2. -/
theorem parentOwners_exact (s : SpecStore.State) (layerID : String) (l : Layer)
    (hres : SpecStore.ResolveLayer s layerID = .ok l) :
    (∃ uids gids, SpecStore.LayerParentOwners s layerID = .ok (uids, gids) ∧
      uids.Nodup ∧ gids.Nodup ∧
      (∀ c, c ∈ uids ↔
        (∃ a, SpecStore.ProperAncestor s a l ∧ SpecStore.InRange a.UIDMap c) ∧
          ¬ SpecStore.InRange l.UIDMap c) ∧
      (∀ c, c ∈ gids ↔
        (∃ a, SpecStore.ProperAncestor s a l ∧ SpecStore.InRange a.GIDMap c) ∧
          ¬ SpecStore.InRange l.GIDMap c) ∧
      (l.Parent = "" → uids = [] ∧ gids = [])) ∧
    SpecStore.LayerParentOwners SpecStore.chainState "B" = .ok ([0, 1, 2], [0, 1, 2]) := by
  refine ⟨?_, by rfl⟩
  unfold SpecStore.LayerParentOwners
  rw [hres]
  by_cases hp : l.Parent = ""
  · simp only [hp, if_true]
    refine ⟨[], [], rfl, List.nodup_nil, List.nodup_nil, ?_, ?_, fun _ => ⟨rfl, rfl⟩⟩
    · intro c
      simp only [List.not_mem_nil, false_iff, not_and, not_not]
      rintro ⟨a, ha, _⟩
      unfold SpecStore.ProperAncestor at ha
      rw [hp] at ha
      cases ha with
      | here hne _ => exact absurd rfl hne
      | up hne _ _ => exact absurd rfl hne
    · intro c
      simp only [List.not_mem_nil, false_iff, not_and, not_not]
      rintro ⟨a, ha, _⟩
      unfold SpecStore.ProperAncestor at ha
      rw [hp] at ha
      cases ha with
      | here hne _ => exact absurd rfl hne
      | up hne _ _ => exact absurd rfl hne
  · simp only [hp, if_false]
    obtain ⟨hun, hum⟩ := SpecStore.unmapped_spec l.UIDMap
      ((SpecStore.ancestors s s.layers.length l.Parent).map (fun a => a.UIDMap))
    obtain ⟨hgn, hgm⟩ := SpecStore.unmapped_spec l.GIDMap
      ((SpecStore.ancestors s s.layers.length l.Parent).map (fun a => a.GIDMap))
    refine ⟨_, _, rfl, hun, hgn, ?_, ?_, fun h => absurd h (by simp)⟩
    · intro c
      rw [hum c]
      simp only [List.mem_map, SpecStore.mem_ancestors_bound_iff, SpecStore.ProperAncestor]
      constructor
      · rintro ⟨⟨map, ⟨a, ha, rfl⟩, hin⟩, hout⟩
        exact ⟨⟨a, ha, hin⟩, hout⟩
      · rintro ⟨⟨a, ha, hin⟩, hout⟩
        exact ⟨⟨a.UIDMap, ⟨a, ha, rfl⟩, hin⟩, hout⟩
    · intro c
      rw [hgm c]
      simp only [List.mem_map, SpecStore.mem_ancestors_bound_iff, SpecStore.ProperAncestor]
      constructor
      · rintro ⟨⟨map, ⟨a, ha, rfl⟩, hin⟩, hout⟩
        exact ⟨⟨a, ha, hin⟩, hout⟩
      · rintro ⟨⟨a, ha, hin⟩, hout⟩
        exact ⟨⟨a.GIDMap, ⟨a, ha, rfl⟩, hin⟩, hout⟩

/-- The chain `root -> A -> B`, with `B` resolved by its name `top`: the UIDs are 0, 1, 2
and they are the IDs that the ancestors declare. -/
theorem parentOwners_exact_witness :
    (layerParentOwners (SpecStore.store SpecStore.noSize) ["top"]
      (startWorld SpecStore.chainState)).2.stdout
      = [Output.text "ID: B\n", Output.text "UIDs: [0 1 2]\n", Output.text "GIDs: [0 1 2]\n"] ∧
    ∃ uids gids, SpecStore.LayerParentOwners SpecStore.chainState "top" = .ok (uids, gids) ∧
      uids = [0, 1, 2] ∧
      (∀ c, c ∈ uids ↔
        (∃ a, SpecStore.ProperAncestor SpecStore.chainState a
            { ID := "B", Parent := "A", Names := ["top"], ReadOnly := false,
              UIDMap := [], GIDMap := [] } ∧ SpecStore.InRange a.UIDMap c) ∧
          ¬ SpecStore.InRange ([] : List IDMap) c) := by
  obtain ⟨⟨uids, gids, h, _, _, hu, _, _⟩, _⟩ := parentOwners_exact SpecStore.chainState "top"
    { ID := "B", Parent := "A", Names := ["top"], ReadOnly := false, UIDMap := [], GIDMap := [] }
    (by rfl)
  have hval : SpecStore.LayerParentOwners SpecStore.chainState "top"
      = .ok ([0, 1, 2], [0, 1, 2]) := by rfl
  rw [hval] at h
  simp only [Except.ok.injEq, Prod.mk.injEq] at h
  obtain ⟨h1, h2⟩ := h
  subst h1
  exact ⟨by decide, _, _, hval, rfl, hu⟩

/-! ## Concrete runs -/

/-- The command `image` on a name that no image has and on the name `busybox`: status 1,
and the one record that resolves is rendered. -/
theorem image_run :
    (image (SpecStore.store SpecStore.noSize) ["nope", "busybox"]
      (startWorld SpecStore.chainState)).1 = .exit 1 ∧
    (image (SpecStore.store SpecStore.noSize) ["nope", "busybox"]
      (startWorld SpecStore.chainState)).2.stdout
      = [Output.text "ID: img1\n", Output.text "Name: busybox\n", Output.text "Top Layer: B\n",
         Output.text "Size unknown: size not known\n"] := by
  decide

set_option maxRecDepth 10000 in
/-- The commands `set-image-data`, then `get-image-data-digest`, on the bytes 1, 2, 3: the
digest printed is the SHA-256 digest of those bytes, and it passed the validation. -/
theorem digest_run :
    (getImageBigDataDigest (SpecStore.store SpecStore.noSize) ["busybox", "manifest"]
      (setImageBigData (SpecStore.store SpecStore.noSize) ["busybox", "manifest"]
        (startWorld SpecStore.chainState)).2).2.stdout
      = [Output.text
          "sha256:039058c6f2c0cb492c533b0a4d14ef77cc0f78abccced5287d84a1a2011cfb81\n"] := by
  decide

end ContainersStorage
